import Mathlib

/-!
# Verification of the rapidstream-noc NoC selector against its specification

This file gives a shallow embedding, in Lean 4, of the parts of the
rapidstream-noc code base that the checked claims are about:

* the ILP model built by `noc_pass.py` (`ilp_noc_selector_add_var`,
  `ilp_noc_selector_add_stream_constr`, `ilp_noc_selector_add_mmap_constr`,
  `ilp_noc_selector_add_bw_constr`, `ilp_noc_selector_add_obj`),
* decision extraction (`post_process_noc_ilp`, `print_ordered_edges`),
* the Manhattan distance helpers (`get_stream_manhattan_dist`,
  `get_stream_manhattan_bw`, `extract_slot_coord`, `extract_slot_range`
  from `ir_helper.py`),
* the FIFO splitting transformation (`parse_fifo_params`,
  `create_nmu_fifo_ir`, `create_nsu_fifo_ir` from `ir_helper.py`),
* the device-slot tables (`Device.__init__`, `Device.get_num_nmu_in_slot`
  from `device.py`),
* the VH1582 topology builder (`vh1582_nocgraph.py` together with
  `NocGraph.get_all_nodes` / `get_all_edges` from `noc_graph.py`).

Python dicts that the code iterates are embedded as association lists in
iteration (insertion) order; Python floats are embedded as rationals;
fallible operations (list indexing, `int(...)` parsing, assertions) are
embedded with `Option`.  `pulp` linear constraints are embedded
syntactically as lists of `(coefficient, variable)` terms together with a
comparison against a constant, exactly in the order the Python code emits
the terms, plus an evaluation semantics.
-/

/-! ## Linear programs, as built by pulp in `noc_pass.py` -/

/-- The decision variables created by `ilp_noc_selector_add_var`:
`x_<stream>_<edge>`, `y_<stream>_<node>`, `z_<stream>_<node>`,
`not_mapped_<stream>` for streams, and `x_<port>_<edge>`,
`x_ret_<port>_<edge>` for MMAP ports. -/
inductive IVar : Type
  | x (stream : String) (e : String × String)
  | y (stream : String) (n : String)
  | z (stream : String) (n : String)
  | notMapped (stream : String)
  | xMmap (port : String) (e : String × String)
  | xRet (port : String) (e : String × String)
deriving DecidableEq

/-- A linear expression: an ordered list of (coefficient, variable) terms,
mirroring the order in which the Python code sums the terms. -/
abbrev LinExpr : Type := List (ℚ × IVar)

/-- A pulp constraint: `lhs == rhs` or `lhs <= rhs` with constant rhs. -/
inductive Constr : Type
  | eqC (lhs : LinExpr) (rhs : ℚ)
  | leC (lhs : LinExpr) (rhs : ℚ)
deriving DecidableEq

/-- Value of a linear expression under a valuation of the variables. -/
def evalLin (v : IVar → ℚ) (l : LinExpr) : ℚ :=
  (l.map (fun t => t.1 * v t.2)).sum

/-- A valuation satisfies a constraint. -/
def satConstr (v : IVar → ℚ) : Constr → Prop
  | Constr.eqC lhs rhs => evalLin v lhs = rhs
  | Constr.leC lhs rhs => evalLin v lhs ≤ rhs

/-- A valuation satisfies every constraint of a model. -/
def satModel (v : IVar → ℚ) (m : List Constr) : Prop :=
  ∀ c ∈ m, satConstr v c

/-- All variables take value 0 or 1 (the `cat="Binary"` declaration). -/
def BinaryVal (v : IVar → ℚ) : Prop :=
  ∀ w : IVar, v w = 0 ∨ v w = 1

/-! ## The inputs of the ILP builders -/

/-- `end_nodes` of one stream: the admissible ingress (`"src"`) and egress
(`"dest"`) node-name lists, as produced by `get_slot_to_noc_nodes`. -/
structure EndNodes : Type where
  src : List String
  dest : List String
deriving DecidableEq

/-- `streams_nodes`: insertion-ordered dict from stream name to its
admissible end nodes. -/
abbrev StreamsNodes : Type := List (String × EndNodes)

/-- `mmap_noc`: insertion-ordered dict from MMAP port name to its pinned
`(src, dest)` node names. -/
abbrev MmapNoc : Type := List (String × String × String)

/-- An edge of `NocGraph` (`noc_graph.py`): named endpoints and a
bandwidth capacity. -/
structure NEdge : Type where
  src : String
  dest : String
  bandwidth : ℚ
deriving DecidableEq

/-- The queried interface of `device.noc_graph` used by the ILP builders:
`edges` (list of `Edge`), `get_all_nodes()`, `get_all_nmu_nodes()`,
`get_all_nsu_nodes()`. -/
structure NocGraphIfc : Type where
  edges : List NEdge
  allNodes : List String
  nmuNodes : List String
  nsuNodes : List String

/-- `get_all_edges()`: the edge list without attributes. -/
def NocGraphIfc.allEdges (g : NocGraphIfc) : List (String × String) :=
  g.edges.map (fun e => (e.src, e.dest))

/-- Insertion-order deduplication (first occurrence wins), as NetworkX
node insertion behaves in `nx.DiGraph`. -/
def dedupFirst (l : List String) : List String :=
  l.foldl (fun acc n => if n ∈ acc then acc else acc ++ [n]) []

/-- The node list of the NetworkX graph built by
`get_nx_graph_from_noc_graph`: `get_all_nodes()` first, then any edge
endpoint not already present. -/
def nxNodes (g : NocGraphIfc) : List String :=
  dedupFirst (g.allNodes ++ g.edges.flatMap (fun e => [e.src, e.dest]))

/-- `noc_nx_graph.predecessors(n)`: sources of the edges into `n`. -/
def preds (g : NocGraphIfc) (n : String) : List String :=
  dedupFirst ((g.edges.filter (fun e => e.dest = n)).map NEdge.src)

/-- `noc_nx_graph.successors(n)`: destinations of the edges out of `n`. -/
def succs (g : NocGraphIfc) (n : String) : List String :=
  dedupFirst ((g.edges.filter (fun e => e.src = n)).map NEdge.dest)

/-! ## `ilp_noc_selector_add_stream_constr` -/

/-- Constraint group 1 of `ilp_noc_selector_add_stream_constr`:
for each stream, `lpSum(y[n] for n in src) + not_mapped == 1`. -/
def streamSrcSelConstr (sn : StreamsNodes) : List Constr :=
  sn.map (fun se =>
    Constr.eqC
      ((se.2.src.map (fun n => ((1 : ℚ), IVar.y se.1 n)))
        ++ [((1 : ℚ), IVar.notMapped se.1)]) 1)

/-- Constraint group 2: for each stream,
`lpSum(z[n] for n in dest) + not_mapped == 1`. -/
def streamDestSelConstr (sn : StreamsNodes) : List Constr :=
  sn.map (fun se =>
    Constr.eqC
      ((se.2.dest.map (fun n => ((1 : ℚ), IVar.z se.1 n)))
        ++ [((1 : ℚ), IVar.notMapped se.1)]) 1)

/-- Constraint group 3 (flow conservation) for one stream: for every
graph node that is neither an admissible src nor dest of the stream,
conserved flow and the at-most-once visit bound; then per admissible src
node, outflow equals `y[n]` and no inflow; per admissible dest node,
inflow equals `z[n]` and no outflow. -/
def streamFlowConstr (g : NocGraphIfc) (s : String) (en : EndNodes) :
    List Constr :=
  ((nxNodes g).filter (fun node => node ∉ en.src ∧ node ∉ en.dest)).flatMap
    (fun node =>
      [Constr.eqC
          (((preds g node).map (fun u => ((1 : ℚ), IVar.x s (u, node))))
            ++ ((succs g node).map (fun w => ((-1 : ℚ), IVar.x s (node, w)))))
          0,
        Constr.leC
          (((preds g node).map (fun u => ((1 : ℚ), IVar.x s (u, node))))
            ++ ((succs g node).map (fun w => ((1 : ℚ), IVar.x s (node, w)))))
          (1 + 1)])
  ++ en.src.flatMap (fun n =>
      [Constr.eqC
          (((succs g n).map (fun w => ((1 : ℚ), IVar.x s (n, w))))
            ++ [((-1 : ℚ), IVar.y s n)]) 0,
        Constr.eqC ((preds g n).map (fun u => ((1 : ℚ), IVar.x s (u, n)))) 0])
  ++ en.dest.flatMap (fun n =>
      [Constr.eqC
          (((preds g n).map (fun u => ((1 : ℚ), IVar.x s (u, n))))
            ++ [((-1 : ℚ), IVar.z s n)]) 0,
        Constr.eqC ((succs g n).map (fun w => ((1 : ℚ), IVar.x s (n, w)))) 0])

/-- Constraint group 4 for NMU nodes: for every node of
`get_all_nmu_nodes()`, the sum of `y[node]` over the streams admitting
`node` as a source is at most `1 - #{MMAP ports with src == node}`. -/
def nmuUniqueConstr (g : NocGraphIfc) (sn : StreamsNodes) (mm : MmapNoc) :
    List Constr :=
  g.nmuNodes.map (fun node =>
    Constr.leC
      ((sn.filter (fun se => node ∈ se.2.src)).map
        (fun se => ((1 : ℚ), IVar.y se.1 node)))
      (1 - ((mm.filter (fun pe => node = pe.2.1)).length : ℚ)))

/-- Constraint group 4 for NSU nodes: for every node of
`get_all_nsu_nodes()`, the sum of `z[node]` over the streams admitting
`node` as a destination is at most 1. -/
def nsuUniqueConstr (g : NocGraphIfc) (sn : StreamsNodes) : List Constr :=
  g.nsuNodes.map (fun node =>
    Constr.leC
      ((sn.filter (fun se => node ∈ se.2.dest)).map
        (fun se => ((1 : ℚ), IVar.z se.1 node)))
      1)

/-- `ilp_noc_selector_add_stream_constr`: all constraints it adds to the
model, in emission order. -/
def addStreamConstr (g : NocGraphIfc) (sn : StreamsNodes) (mm : MmapNoc) :
    List Constr :=
  streamSrcSelConstr sn
    ++ streamDestSelConstr sn
    ++ sn.flatMap (fun se => streamFlowConstr g se.1 se.2)
    ++ nmuUniqueConstr g sn mm
    ++ nsuUniqueConstr g sn

/-! ## `ilp_noc_selector_add_mmap_constr` -/

/-- Flow constraints of one MMAP port (forward `x` and return `x_ret`):
conservation and visit bounds at non-endpoint nodes, then the pinned
endpoint constraints. -/
def mmapPortConstr (g : NocGraphIfc) (p : String) (sd : String × String) :
    List Constr :=
  ((nxNodes g).filter (fun node => node ≠ sd.1 ∧ node ≠ sd.2)).flatMap
    (fun node =>
      [Constr.eqC
          (((preds g node).map (fun u => ((1 : ℚ), IVar.xMmap p (u, node))))
            ++ ((succs g node).map (fun w => ((-1 : ℚ), IVar.xMmap p (node, w)))))
          0,
        Constr.eqC
          (((preds g node).map (fun u => ((1 : ℚ), IVar.xRet p (u, node))))
            ++ ((succs g node).map (fun w => ((-1 : ℚ), IVar.xRet p (node, w)))))
          0,
        Constr.leC
          (((preds g node).map (fun u => ((1 : ℚ), IVar.xMmap p (u, node))))
            ++ ((succs g node).map (fun w => ((1 : ℚ), IVar.xMmap p (node, w)))))
          (1 + 1),
        Constr.leC
          (((preds g node).map (fun u => ((1 : ℚ), IVar.xRet p (u, node))))
            ++ ((succs g node).map (fun w => ((1 : ℚ), IVar.xRet p (node, w)))))
          (1 + 1)])
  ++ [Constr.eqC ((succs g sd.1).map (fun w => ((1 : ℚ), IVar.xMmap p (sd.1, w)))) 1,
      Constr.eqC ((preds g sd.1).map (fun u => ((1 : ℚ), IVar.xMmap p (u, sd.1)))) 0,
      Constr.eqC ((succs g sd.2).map (fun w => ((1 : ℚ), IVar.xRet p (sd.2, w)))) 1,
      Constr.eqC ((preds g sd.2).map (fun u => ((1 : ℚ), IVar.xRet p (u, sd.2)))) 0,
      Constr.eqC ((preds g sd.2).map (fun u => ((1 : ℚ), IVar.xMmap p (u, sd.2)))) 1,
      Constr.eqC ((succs g sd.2).map (fun w => ((1 : ℚ), IVar.xMmap p (sd.2, w)))) 0,
      Constr.eqC ((preds g sd.1).map (fun u => ((1 : ℚ), IVar.xRet p (u, sd.1)))) 1,
      Constr.eqC ((succs g sd.1).map (fun w => ((1 : ℚ), IVar.xRet p (sd.1, w)))) 0]

/-- `ilp_noc_selector_add_mmap_constr`: all constraints it adds. -/
def addMmapConstr (g : NocGraphIfc) (mm : MmapNoc) : List Constr :=
  mm.flatMap (fun pe => mmapPortConstr g pe.1 pe.2)

/-! ## `ilp_noc_selector_add_bw_constr` -/

/-- `streams_bw`: insertion-ordered dict from stream name to bandwidth. -/
abbrev StreamsBw : Type := List (String × ℚ)

/-- `mmap_bw`: insertion-ordered dict from port name to
(`read_bw`, `write_bw`). -/
abbrev MmapBw : Type := List (String × ℚ × ℚ)

/-- Modelled from the spec: `round_up_to_noc_bw` is imported by
`noc_pass.py` from a revision of `ir_helper.py` that is not part of the
source snapshot.  The spec says "round each stream's raw bandwidth up to
the NoC's per-port granularity", so it is modelled as rounding up to the
next multiple of a granularity `q` (the concrete quantum is a device
property the spec does not fix, hence the parameter). -/
def round_up_to_noc_bw (q : ℚ) (bw : ℚ) : ℚ :=
  q * (⌈bw / q⌉ : ℚ)

/-- The left-hand side of the bandwidth constraint of edge `e`:
`Σ_s round(bw_s)·x_s_e + Σ_p ((rd/16 + wr·(1/16+1))·x_p_e
+ (rd + wr/16)·x_ret_p_e)`, summed in the emission order of the code. -/
def bwConstrLhs (q : ℚ) (sbw : StreamsBw) (mbw : MmapBw)
    (e : String × String) : LinExpr :=
  (sbw.map (fun sb => (round_up_to_noc_bw q sb.2, IVar.x sb.1 e)))
    ++ mbw.flatMap (fun pa =>
        [(pa.2.1 / 16 + pa.2.2 * (1 / 16 + 1), IVar.xMmap pa.1 e),
          (pa.2.1 + pa.2.2 / 16, IVar.xRet pa.1 e)])

/-- `ilp_noc_selector_add_bw_constr`: for every `e` of
`device.noc_graph.edges`, the capacity constraint `lhs <= e.bandwidth`. -/
def addBwConstr (q : ℚ) (g : NocGraphIfc) (sbw : StreamsBw) (mbw : MmapBw) :
    List Constr :=
  g.edges.map (fun e =>
    Constr.leC (bwConstrLhs q sbw mbw (e.src, e.dest)) e.bandwidth)

/-! ## `ilp_noc_selector_add_obj` and the full model -/

/-- `ilp_noc_selector_add_obj`: the objective
`total_not_mapped_bandwidth + 300 * total_path_length` where
`total_path_length = Σ_s Σ_e x_s_e` and `total_not_mapped_bandwidth =
Σ_s bw_s · not_mapped_s` (the bandwidths handed in are the Manhattan
bandwidths). -/
def addObj (g : NocGraphIfc) (sn : StreamsNodes) (sbw : StreamsBw) : LinExpr :=
  (sbw.map (fun sb => (sb.2, IVar.notMapped sb.1)))
    ++ sn.flatMap (fun se =>
        (g.allEdges.map (fun e => ((300 : ℚ), IVar.x se.1 e))))

/-- The constraint list of the model built by `ilp_noc_selector`
(the call to `ilp_noc_selector_add_constr_special` is commented out in
the source).  `streams_nodes` is passed explicitly because
`get_slot_to_noc_nodes` is not part of the source snapshot. -/
def ilpModelConstraints (q : ℚ) (g : NocGraphIfc) (sn : StreamsNodes)
    (sbw : StreamsBw) (mm : MmapNoc) (mbw : MmapBw) : List Constr :=
  addStreamConstr g sn mm ++ addMmapConstr g mm ++ addBwConstr q g sbw mbw

/-! ## Slot parsing and Manhattan distance (`ir_helper.py`, `noc_pass.py`)

Python's `str.split` and `int(...)` are embedded by structurally
recursive functions over the character list of the string (the library
versions recurse on string positions and are therefore opaque to
kernel evaluation). -/

/-- One pass of `str.split(sep)`: `cur` is the reversed current token,
the fuel is at least the remaining length plus one. -/
def splitTok (sep : List Char) : Nat → List Char → List Char → List (List Char)
  | 0, cur, l => [cur.reverse ++ l]
  | _ + 1, cur, [] => [cur.reverse]
  | fuel + 1, cur, c :: rest =>
    if sep.isPrefixOf (c :: rest) then
      cur.reverse :: splitTok sep fuel [] ((c :: rest).drop sep.length)
    else
      splitTok sep fuel (c :: cur) rest

/-- Python `s.split(sep)` for a non-empty separator: splits at each
non-overlapping occurrence, left to right; always returns at least one
element. -/
def pySplit (s sep : String) : List String :=
  (splitTok sep.data (s.data.length + 1) [] s.data).map (fun l => ⟨l⟩)

/-- The numeric value of a decimal digit. -/
def digitVal (c : Char) : Option Nat :=
  if c.isDigit then some (c.toNat - '0'.toNat) else none

/-- Accumulate decimal digits; any non-digit raises (Python
`ValueError`), i.e. is `none`. -/
def parseDigitsAux : List Char → Nat → Option Nat
  | [], acc => some acc
  | c :: rest, acc =>
    match digitVal c with
    | some d => parseDigitsAux rest (acc * 10 + d)
    | none => none

/-- Python `int(s)` on an optionally-minus-signed decimal numeral
(the only shapes the parsed slot names and IR parameters take). -/
def pyInt (s : String) : Option Int :=
  match s.data with
  | [] => none
  | '-' :: rest =>
    if rest.isEmpty then none
    else (parseDigitsAux rest 0).map (fun n => -(n : Int))
  | l => (parseDigitsAux l 0).map (fun n => (n : Int))

/-- `sub` occurs as a contiguous substring (Python `in` on strings). -/
def isInfixL (sub : List Char) : List Char → Bool
  | [] => sub.isEmpty
  | c :: rest => sub.isPrefixOf (c :: rest) || isInfixL sub rest

/-- `extract_slot_coord`: `int(name.split("X")[1].split("Y")[0])`,
`int(name.split("Y")[1])`; `Option` models the exceptions of missing
list indices and failed `int(...)` parses. -/
def extract_slot_coord (slotName : String) : Option (Int × Int) := do
  let px ← (pySplit slotName "X")[1]?
  let xs ← (pySplit px "Y")[0]?
  let x ← pyInt xs
  let ys ← (pySplit slotName "Y")[1]?
  let y ← pyInt ys
  return (x, y)

/-- `extract_slot_range`: splits on `"_TO_"`, parses both corners, asserts
lower-left ≤ upper-right, and enumerates the rectangle, `x` outer and `y`
inner, exactly as the Python double loop does. -/
def extract_slot_range (slotRange : String) : Option (List (Int × Int)) := do
  let parts := pySplit slotRange "_TO_"
  let p0 ← parts[0]?
  let p1 ← parts[1]?
  let ll ← extract_slot_coord p0
  let ur ← extract_slot_coord p1
  if ll.1 ≤ ur.1 ∧ ll.2 ≤ ur.2 then
    return (List.range (ur.1 + 1 - ll.1).toNat).flatMap (fun (dx : Nat) =>
      (List.range (ur.2 + 1 - ll.2).toNat).map (fun (dy : Nat) =>
        (ll.1 + (dx : Int), ll.2 + (dy : Int))))
  else none

/-- `streams_slots`: insertion-ordered dict from stream name to its
(`"src"`, `"dest"`) slot-range strings. -/
abbrev StreamsSlots : Type := List (String × String × String)

/-- The per-stream body of `get_stream_manhattan_dist`: parse the first
corner of each slot range (`split("_TO_")[0]`) and take
`abs(dest_x - src_x) + abs(dest_y - src_y)`. -/
def streamManhattanDist (src dest : String) : Option Int := do
  let s ← extract_slot_coord ((pySplit src "_TO_").headD "")
  let d ← extract_slot_coord ((pySplit dest "_TO_").headD "")
  return |d.1 - s.1| + |d.2 - s.2|

/-- `get_stream_manhattan_dist`: the dict of per-stream distances. -/
def get_stream_manhattan_dist (slots : StreamsSlots) :
    Option (List (String × Int)) :=
  slots.mapM (fun t => do
    let d ← streamManhattanDist t.2.1 t.2.2
    return (t.1, d))

/-- The loop of `get_stream_manhattan_bw` over the `streams_bw`
entries: each stream maps to `bw * streams_manhattan[stream_name]` (a
missing key, Python `KeyError`, is `none`). -/
def manhattanBwList (md : List (String × Int)) : StreamsBw → Option StreamsBw
  | [] => some []
  | sb :: rest => do
    let d ← md.lookup sb.1
    let tail ← manhattanBwList md rest
    return (sb.1, sb.2 * (d : ℚ)) :: tail

/-- `get_stream_manhattan_bw`: the distances dict, then the per-stream
products. -/
def get_stream_manhattan_bw (slots : StreamsSlots) (sbw : StreamsBw) :
    Option StreamsBw := do
  let md ← get_stream_manhattan_dist slots
  manhattanBwList md sbw

/-- The objective handed to the solver by `ilp_noc_selector`: `add_obj`
applied to the Manhattan bandwidths of the streams. -/
def ilpObjective (g : NocGraphIfc) (sn : StreamsNodes)
    (slots : StreamsSlots) (sbw : StreamsBw) : Option LinExpr := do
  let mbw ← get_stream_manhattan_bw slots sbw
  return addObj g sn mbw

/-! ## Decision extraction (`post_process_noc_ilp`, `print_ordered_edges`) -/

/-- `next((node for node in nodes if ilp_var[...][node].value() == 1), None)`. -/
def firstChosen (v : IVar → ℚ) (mk : String → IVar) (nodes : List String) :
    Option String :=
  nodes.find? (fun n => decide (v (mk n) = 1))

/-- Python truthiness of an optional string (`None` and `""` are falsy). -/
def pyTruthy : Option String → Bool
  | none => false
  | some s => !s.isEmpty

/-- The loop body of `post_process_noc_ilp` for one stream: a stream
whose `y` row and `z` row both contain a chosen (value-1, truthy) node
is appended to `noc_streams` and bound to
`(selected_src, selected_dest)` in `node_loc`. -/
def ppStep (v : IVar → ℚ)
    (acc : List String × List (String × String × String))
    (se : String × EndNodes) :
    List String × List (String × String × String) :=
  let selectedSrc := firstChosen v (IVar.y se.1) se.2.src
  let selectedDest := firstChosen v (IVar.z se.1) se.2.dest
  if pyTruthy selectedSrc ∧ pyTruthy selectedDest then
    (acc.1 ++ [se.1],
      acc.2 ++ [(se.1, selectedSrc.getD "", selectedDest.getD "")])
  else acc

/-- `post_process_noc_ilp`: walks the streams in order, accumulating
`(noc_streams, node_loc)`.  The selected edges per stream are only
printed (via `print_ordered_edges`), not returned. -/
def post_process_noc_ilp (v : IVar → ℚ) (sn : StreamsNodes) :
    List String × List (String × String × String) :=
  sn.foldl (ppStep v) ([], [])

/-- The `selected_edges` list that `post_process_noc_ilp` prints for a
stream: `[e for e, var in ilp_var[s]["x"].items() if var.value() >= 1]`. -/
def selectedEdges (v : IVar → ℚ) (g : NocGraphIfc) (s : String) :
    List (String × String) :=
  g.allEdges.filter (fun e => decide (1 ≤ v (IVar.x s e)))

/-- Node list of the `nx.DiGraph` built from an edge list, in insertion
order. -/
def nodesOfEdges (es : List (String × String)) : List String :=
  dedupFirst (es.flatMap (fun e => [e.1, e.2]))

/-- Successors of `n` in the edge-list graph. -/
def succsOfEdges (es : List (String × String)) (n : String) : List String :=
  dedupFirst ((es.filter (fun e => e.1 = n)).map Prod.snd)

/-- Fuel-bounded forward closure of a node set under the edge relation. -/
def reachSet (es : List (String × String)) : Nat → List String → List String
  | 0, acc => acc
  | fuel + 1, acc =>
    let nxt := (acc.flatMap (succsOfEdges es)).filter (fun n => n ∉ acc)
    if nxt = [] then acc else reachSet es fuel (acc ++ dedupFirst nxt)

/-- `n` lies on some cycle of the edge-list graph, i.e. on some simple
cycle: the union of the node sets of `nx.simple_cycles(graph)` is exactly
the set of nodes reachable from one of their own successors. -/
def onCycle (es : List (String × String)) (n : String) : Bool :=
  n ∈ reachSet es (nodesOfEdges es).length (succsOfEdges es n)

/-- One round of Kahn's algorithm with fuel: `nx.topological_sort`
succeeds exactly when the graph is acyclic.  `none` models the
`nx.NetworkXUnfeasible` exception. -/
def topoSortAux (es : List (String × String)) :
    Nat → List String → Option (List String)
  | _, [] => some []
  | 0, _ => none
  | fuel + 1, ns =>
    match ns.find? (fun n =>
        !(es.any (fun e => decide (e.2 = n) && e.1 ∈ ns && decide (e.1 ≠ n)))) with
    | none => none
    | some n => do
      let rest ← topoSortAux es fuel (ns.erase n)
      return n :: rest

/-- The outcome of `print_ordered_edges`: both constructors are *normal
returns* of the Python function (it prints and returns `None` in both the
success branch and the `except nx.NetworkXUnfeasible` branch; it raises
nothing). -/
inductive ExtractOutcome : Type
  | sortedPrinted (order : List String)
  | invalidPrinted
deriving DecidableEq

/-- `print_ordered_edges`: builds the graph, removes every node of every
simple cycle, and topologically sorts the remainder; on
`nx.NetworkXUnfeasible` it prints a message and returns normally. -/
def print_ordered_edges (es : List (String × String)) : ExtractOutcome :=
  let remNodes := (nodesOfEdges es).filter (fun n => !onCycle es n)
  let remEdges := es.filter (fun e => !onCycle es e.1 && !onCycle es e.2)
  match topoSortAux remEdges (remNodes.length + 1) remNodes with
  | some order => ExtractOutcome.sortedPrinted order
  | none => ExtractOutcome.invalidPrinted

/-! ## FIFO splitting (`parse_fifo_params`, `create_nmu_fifo_ir`,
`create_nsu_fifo_ir` from `ir_helper.py`) -/

/-- One entry of a module's `parameters` (or `connections`) list in the
Rapidstream IR: the entry's `name` and the `repr` of its (single-item)
`expr`. -/
structure ParamIR : Type where
  name : String
  expr : String
deriving DecidableEq

/-- A pipeline FIFO instance in the IR: its `name`, `parameters` and
`connections`. -/
structure FifoIR : Type where
  name : String
  parameters : List ParamIR
  connections : List ParamIR
deriving DecidableEq

/-- The dict built by `parse_fifo_params`. -/
structure FifoParams : Type where
  depth : Int
  head_region : String
  tail_region : String
  data_width : Int
deriving DecidableEq

/-- Python `"REGION" in name` substring test. -/
def containsREGION (name : String) : Bool :=
  isInfixL "REGION".data name.data

/-- Last value assigned to a key while iterating the parameter list (a
Python dict assignment in a loop keeps the last occurrence). -/
def lastParamVal (ps : List ParamIR) (key : String) : Option String :=
  (ps.reverse.find? (fun p => p.name = key)).map ParamIR.expr

/-- `parse_fifo_params`: `depth = str(eval_id_expr(DEPTH))`,
`head_region = HEAD_REGION repr`, `tail_region = TAIL_REGION repr`,
`data_width = str(eval_id_expr(DATA_WIDTH) - 1)`.  `eval_id_expr` on a
literal numeral is integer parsing. -/
def parse_fifo_params (fifo : FifoIR) : Option FifoParams := do
  let dStr ← lastParamVal fifo.parameters "DEPTH"
  let d ← pyInt dStr
  let h ← lastParamVal fifo.parameters "__HEAD_REGION"
  let t ← lastParamVal fifo.parameters "__TAIL_REGION"
  let wStr ← lastParamVal fifo.parameters "DATA_WIDTH"
  let w ← pyInt wStr
  return { depth := d, head_region := h, tail_region := t,
           data_width := w - 1 }

/-- The names of the four ports made by `create_m_axis_ports(name, _)`
(resp. `create_s_axis_ports`). -/
structure AxisPorts : Type where
  tdata : String
  tvalid : String
  tready : String
  tlast : String
deriving DecidableEq

/-- `create_m_axis_ports` port names. -/
def m_axis_ports_of (name : String) : AxisPorts :=
  { tdata := "m_axis_" ++ name ++ "_tdata",
    tvalid := "m_axis_" ++ name ++ "_tvalid",
    tready := "m_axis_" ++ name ++ "_tready",
    tlast := "m_axis_" ++ name ++ "_tlast" }

/-- `create_s_axis_ports` port names. -/
def s_axis_ports_of (name : String) : AxisPorts :=
  { tdata := "s_axis_" ++ name ++ "_tdata",
    tvalid := "s_axis_" ++ name ++ "_tvalid",
    tready := "s_axis_" ++ name ++ "_tready",
    tlast := "s_axis_" ++ name ++ "_tlast" }

/-- `create_nmu_fifo_ir`: copy of the FIFO named `"nmu_" + name`; `DEPTH`
becomes `str(int(depth) // 2)` (Python floor division), `BODY_LEVEL`
becomes `"0"`, every parameter whose name contains `"REGION"` becomes the
head region; `if_dout`/`if_empty_n`/`if_read` are rewired to the master
AXIS `tdata`/`tvalid`/`tready`. -/
def create_nmu_fifo_ir (fifo : FifoIR) (fp : FifoParams)
    (mAxis : AxisPorts) : FifoIR :=
  { name := "nmu_" ++ fifo.name,
    parameters := fifo.parameters.map (fun p =>
      if p.name = "DEPTH" then { p with expr := toString (Int.fdiv fp.depth 2) }
      else if p.name = "BODY_LEVEL" then { p with expr := "0" }
      else if containsREGION p.name then { p with expr := fp.head_region }
      else p),
    connections := fifo.connections.map (fun c =>
      if c.name = "if_dout" then { c with expr := mAxis.tdata }
      else if c.name = "if_empty_n" then { c with expr := mAxis.tvalid }
      else if c.name = "if_read" then { c with expr := mAxis.tready }
      else c) }

/-- `create_nsu_fifo_ir`: copy named `"nsu_" + name`; `DEPTH` becomes
`str(int(depth) // 2)`, `BODY_LEVEL` becomes `"0"`, every `REGION`
parameter becomes the tail region; `if_din`/`if_full_n`/`if_write` are
rewired to the slave AXIS `tdata`/`tready`/`tvalid`. -/
def create_nsu_fifo_ir (fifo : FifoIR) (fp : FifoParams)
    (sAxis : AxisPorts) : FifoIR :=
  { name := "nsu_" ++ fifo.name,
    parameters := fifo.parameters.map (fun p =>
      if p.name = "DEPTH" then { p with expr := toString (Int.fdiv fp.depth 2) }
      else if p.name = "BODY_LEVEL" then { p with expr := "0" }
      else if containsREGION p.name then { p with expr := fp.tail_region }
      else p),
    connections := fifo.connections.map (fun c =>
      if c.name = "if_din" then { c with expr := sAxis.tdata }
      else if c.name = "if_full_n" then { c with expr := sAxis.tready }
      else if c.name = "if_write" then { c with expr := sAxis.tvalid }
      else c) }

/-! ## Device slot tables (`device.py`) -/

/-- The allocation
`[[0 for _ in range(slot_width)] for _ in range(slot_height)]`:
outer length `slot_height`, inner length `slot_width`. -/
def nmuPerSlotInit (w h : Nat) : List (List Nat) :=
  List.replicate h (List.replicate w 0)

/-- The `(i, j)` index pairs, in order, at which `Device.__init__` writes
`self.nmu_per_slot[i][j]` (`for j in range(slot_height): for i in
range(slot_width)`). -/
def populateAccesses (w h : Nat) : List (Nat × Nat) :=
  (List.range h).flatMap (fun j => (List.range w).map (fun i => (i, j)))

/-- The value written at column `i`, row `j`:
`(rows_per_slr[j] * num_col) // slot_width`. -/
def nmuSlotVal (rows : List Nat) (ncol w j : Nat) : Nat :=
  rows.getD j 0 * ncol / w

/-- Bounds-checked write `t[i][j] = v`; `none` models Python's
`IndexError`. -/
def writeCell (t : List (List Nat)) (i j v : Nat) :
    Option (List (List Nat)) := do
  let row ← t[i]?
  if j < row.length then some (t.set i (row.set j v)) else none

/-- The population loop of `Device.__init__` over `nmu_per_slot`
(the `nsu_per_slot` loop is identical). -/
def populateNmuPerSlot (w h ncol : Nat) (rows : List Nat) :
    Option (List (List Nat)) :=
  (populateAccesses w h).foldlM
    (fun t ij => writeCell t ij.1 ij.2 (nmuSlotVal rows ncol w ij.2))
    (nmuPerSlotInit w h)

/-- The indexing `self.nmu_per_slot[x][y]` performed by
`get_num_nmu_in_slot` after its assertions; `none` models `IndexError`. -/
def tableAt (t : List (List Nat)) (x y : Nat) : Option Nat := do
  let row ← t[x]?
  row[y]?

/-! ## The VH1582 NoC graph (`vh1582_nocgraph.py`, `noc_graph.py`)

Node names `f"{node_type}_x{x}y{y}"` are embedded as a structured type:
distinct constructor/coordinate combinations render to distinct name
strings, so list membership of names coincides with list membership of
`NodeName` values. -/

/-- The node names of the VH1582 NoC graph: one constructor per
`node_type` prefix, with the numeric coordinates of the name. -/
inductive NodeName : Type
  | nmu (x y : Nat)
  | nsu (x y : Nat)
  | nps_vnoc (x y : Nat)
  | nps_hnoc (x y : Nat)
  | nps_slr0 (x y : Nat)
  | ncrb (x y : Nat)
  | nps_hbm (x y : Nat)
  | ncrb_hbm (x y : Nat)
  | hbm_mc (x pc p : Nat)
  | nmu_hbm (x : Nat)
  | nps4_hbm_mc (x : Nat)
  | nps6_hbm_mc (x y : Nat)
deriving DecidableEq

/-- An `Edge` of the graph (`noc_graph.py`), with its bandwidth. -/
structure EdgeV : Type where
  src : NodeName
  dest : NodeName
  bandwidth : Nat
deriving DecidableEq

/-- The node tables of `NocGraph` as constructed by `vh1582_nocgraph`
(the builder passes all twelve node families). -/
structure NocGraphV : Type where
  num_slr : Nat
  num_col : Nat
  rows_per_slr : List Nat
  nmu_nodes : List (List NodeName)
  nsu_nodes : List (List NodeName)
  nps_vnoc_nodes : List (List NodeName)
  nps_hnoc_nodes : List (List NodeName)
  nps_hbm_nodes : List (List NodeName)
  ncrb_hbm_nodes : List (List NodeName)
  nps_slr0_nodes : List (List NodeName)
  ncrb_nodes : List (List NodeName)
  hbm_mc_nodes : List (List (List NodeName))
  nmu_hbm_nodes : List NodeName
  nps4_hbm_mc_nodes : List NodeName
  nps6_hbm_mc_nodes : List (List NodeName)
  edges : List EdgeV

/-- `create_nodes(node_type, x, y_range)`. -/
def create_nodes (mk : Nat → Nat → NodeName) (x yRange : Nat) :
    List NodeName :=
  (List.range yRange).map (mk x)

/-- Table lookup `t[x][y]` (all lookups of the builder are in bounds for
the concrete VH1582 instance; the default is a sentinel that would fail
every membership check). -/
def nodeAt (t : List (List NodeName)) (x y : Nat) : NodeName :=
  (t.getD x []).getD y (NodeName.nmu 999 999)

/-- Lookup in a flat node list. -/
def nodeAt1 (t : List NodeName) (x : Nat) : NodeName :=
  t.getD x (NodeName.nmu 999 999)

/-- Lookup `hbm_mc_nodes[x][pc][p]`. -/
def nodeAt3 (t : List (List (List NodeName))) (x pc p : Nat) : NodeName :=
  ((t.getD x []).getD pc []).getD p (NodeName.nmu 999 999)

/-- `create_bidir_edges(n1, n2, bandwidth=bw)`. -/
def create_bidir_edges (n1 n2 : NodeName) (bw : Nat) : List EdgeV :=
  [{ src := n1, dest := n2, bandwidth := bw },
    { src := n2, dest := n1, bandwidth := bw }]

/-- `vh1582_nodes`: all node tables (`num_inter_rows =
num_slr * 2 * 2 - 2 - 2`). -/
def vh1582_nodes (num_slr num_col : Nat) (rows_per_slr : List Nat) :
    NocGraphV :=
  let num_row := rows_per_slr.sum
  let num_inter_rows := num_slr * 2 * 2 - 2 - 2
  { num_slr := num_slr,
    num_col := num_col,
    rows_per_slr := rows_per_slr,
    nmu_nodes :=
      (List.range num_col).map (fun x => create_nodes NodeName.nmu x num_row),
    nsu_nodes :=
      (List.range num_col).map (fun x => create_nodes NodeName.nsu x num_row),
    nps_vnoc_nodes :=
      (List.range num_col).map
        (fun x => create_nodes NodeName.nps_vnoc x (num_row * 2)),
    nps_hnoc_nodes :=
      (List.range num_col).map
        (fun x => create_nodes NodeName.nps_hnoc x num_inter_rows),
    nps_hbm_nodes :=
      (List.range num_col).map (fun x => create_nodes NodeName.nps_hbm x 4),
    ncrb_hbm_nodes :=
      (List.range num_col).map (fun x => create_nodes NodeName.ncrb_hbm x 2),
    nps_slr0_nodes :=
      (List.range num_col).map (fun x => create_nodes NodeName.nps_slr0 x 4),
    ncrb_nodes :=
      (List.range (num_col - 1)).map
        (fun x => create_nodes NodeName.ncrb x num_inter_rows),
    hbm_mc_nodes :=
      (List.range 16).map (fun x =>
        (List.range 2).map (fun pc =>
          (List.range 2).map (fun p => NodeName.hbm_mc x pc p))),
    nmu_hbm_nodes :=
      (List.range 16).flatMap (fun x =>
        (List.range 4).map (fun xx => NodeName.nmu_hbm (x * 4 + xx))),
    nps4_hbm_mc_nodes := (List.range 16).map NodeName.nps4_hbm_mc,
    nps6_hbm_mc_nodes :=
      (List.range 8).map
        (fun x => create_nodes NodeName.nps6_hbm_mc x 4),
    edges := [] }

/-- `create_nmu_nsu_edges`. -/
def create_nmu_nsu_edges (G : NocGraphV) (num_col : Nat)
    (rows_per_slr : List Nat) : List EdgeV :=
  let num_row := rows_per_slr.sum
  let y_at_slr_boundary :=
    (List.range rows_per_slr.length).map
      (fun i => (rows_per_slr.take (i + 1)).sum - 1)
  (List.range num_col).flatMap (fun x =>
    (List.range num_row).flatMap (fun y =>
      create_bidir_edges (nodeAt G.nmu_nodes x y)
          (nodeAt G.nps_vnoc_nodes x (y * 2 + 1)) 16000
        ++ create_bidir_edges (nodeAt G.nsu_nodes x y)
            (nodeAt G.nps_vnoc_nodes x (y * 2)) 16000
        ++ create_bidir_edges (nodeAt G.nps_vnoc_nodes x (y * 2))
            (nodeAt G.nps_vnoc_nodes x (y * 2 + 1)) 16000
        ++ (if y ∈ y_at_slr_boundary then []
            else
              create_bidir_edges (nodeAt G.nps_vnoc_nodes x (y * 2))
                  (nodeAt G.nps_vnoc_nodes x ((y + 1) * 2)) 16000
                ++ create_bidir_edges (nodeAt G.nps_vnoc_nodes x (y * 2 + 1))
                    (nodeAt G.nps_vnoc_nodes x ((y + 1) * 2 + 1)) 16000)))

/-- `create_nps_hnoc_edges` (the running `y` equals
`sum(rows_per_slr[:slr+1])` at iteration `slr`). -/
def create_nps_hnoc_edges (G : NocGraphV) (num_slr num_col : Nat)
    (rows_per_slr : List Nat) : List EdgeV :=
  let yOf := fun slr => (rows_per_slr.take (slr + 1)).sum
  ((List.range (num_slr - 1)).flatMap (fun slr =>
    (List.range 2).flatMap (fun r =>
      (List.range num_col).flatMap (fun x =>
        create_bidir_edges (nodeAt G.nps_hnoc_nodes x (slr * 4 + (1 - r)))
            (nodeAt G.nps_vnoc_nodes x (yOf slr * 2 - 2 + r)) 16000
          ++ (if slr < num_slr - 1 then
              create_bidir_edges
                (nodeAt G.nps_hnoc_nodes x (slr * 4 + 2 + (1 - r)))
                (nodeAt G.nps_vnoc_nodes x (yOf slr * 2 + r)) 16000
            else [])))))
    ++ ((List.range (num_slr - 1)).flatMap (fun slr =>
      (List.range 2).flatMap (fun r =>
        (List.range num_col).flatMap (fun x =>
          create_bidir_edges (nodeAt G.nps_hnoc_nodes x (slr * 4 + r))
            (nodeAt G.nps_hnoc_nodes x (slr * 4 + r + 2)) 16000))))

/-- `create_ncrb_edges`. -/
def create_ncrb_edges (G : NocGraphV) (num_slr num_col : Nat) : List EdgeV :=
  (List.range (num_slr * 2 - 2)).flatMap (fun y =>
    (List.range (num_col - 1)).flatMap (fun x =>
      [{ src := nodeAt G.ncrb_nodes x (y * 2),
          dest := nodeAt G.nps_hnoc_nodes x (y * 2), bandwidth := 16000 },
        { src := nodeAt G.ncrb_nodes x (y * 2),
          dest := nodeAt G.nps_hnoc_nodes x (y * 2 + 1), bandwidth := 16000 },
        { src := nodeAt G.nps_hnoc_nodes (x + 1) (y * 2),
          dest := nodeAt G.ncrb_nodes x (y * 2), bandwidth := 16000 },
        { src := nodeAt G.nps_hnoc_nodes (x + 1) (y * 2 + 1),
          dest := nodeAt G.ncrb_nodes x (y * 2), bandwidth := 16000 }]
      ++ [{ src := nodeAt G.nps_hnoc_nodes x (y * 2),
            dest := nodeAt G.ncrb_nodes x (y * 2 + 1), bandwidth := 16000 },
          { src := nodeAt G.nps_hnoc_nodes x (y * 2 + 1),
            dest := nodeAt G.ncrb_nodes x (y * 2 + 1), bandwidth := 16000 },
          { src := nodeAt G.ncrb_nodes x (y * 2 + 1),
            dest := nodeAt G.nps_hnoc_nodes (x + 1) (y * 2), bandwidth := 16000 },
          { src := nodeAt G.ncrb_nodes x (y * 2 + 1),
            dest := nodeAt G.nps_hnoc_nodes (x + 1) (y * 2 + 1),
            bandwidth := 16000 }]))

/-- `create_nps_hbm_edges`. -/
def create_nps_hbm_edges (G : NocGraphV) (num_col num_row : Nat) :
    List EdgeV :=
  ((List.range num_col).flatMap (fun x =>
    (List.range 2).flatMap (fun r =>
      [{ src := nodeAt G.ncrb_hbm_nodes x 0,
          dest := nodeAt G.nps_vnoc_nodes x (num_row * 2 - 2 + r),
          bandwidth := 16000 },
        { src := nodeAt G.nps_vnoc_nodes x (num_row * 2 - 2 + r),
          dest := nodeAt G.ncrb_hbm_nodes x 1, bandwidth := 16000 },
        { src := nodeAt G.nps_hbm_nodes x r,
          dest := nodeAt G.ncrb_hbm_nodes x 0, bandwidth := 16000 },
        { src := nodeAt G.ncrb_hbm_nodes x 1,
          dest := nodeAt G.nps_hbm_nodes x r, bandwidth := 16000 }])))
    ++ ((List.range num_col).flatMap (fun x =>
      ((List.range 2).flatMap (fun row =>
        create_bidir_edges (nodeAt G.nps_hbm_nodes x (row + 2))
          (nodeAt G.nps_hbm_nodes x row) 16000))
        ++ create_bidir_edges (nodeAt G.nps_hbm_nodes x 2)
            (nodeAt G.nps_hbm_nodes x 3) 16000))

/-- `create_nps_slr0_edges`. -/
def create_nps_slr0_edges (G : NocGraphV) (num_col : Nat) : List EdgeV :=
  ((List.range num_col).flatMap (fun x =>
    (List.range 2).flatMap (fun y =>
      create_bidir_edges (nodeAt G.nps_slr0_nodes x y)
        (nodeAt G.nps_vnoc_nodes x y) 16000)))
    ++ ((List.range num_col).flatMap (fun x =>
      (List.range 2).flatMap (fun row =>
        create_bidir_edges (nodeAt G.nps_slr0_nodes x (row + 2))
          (nodeAt G.nps_slr0_nodes x row) 16000)))
    ++ ((List.range (num_col - 1)).flatMap (fun x =>
      (List.range 4).flatMap (fun row =>
        create_bidir_edges (nodeAt G.nps_slr0_nodes x row)
          (nodeAt G.nps_slr0_nodes (x + 1) row) 16000)))

/-- `create_hbm_mc_edges`. -/
def create_hbm_mc_edges (G : NocGraphV) (num_col : Nat) : List EdgeV :=
  ((List.range 8).flatMap (fun x =>
    (List.range 2).flatMap (fun pc =>
      (List.range 2).flatMap (fun p =>
        create_bidir_edges (nodeAt3 G.hbm_mc_nodes (x * 2) pc p)
            (nodeAt1 G.nps4_hbm_mc_nodes (x * 2 + p)) 16000
          ++ create_bidir_edges (nodeAt3 G.hbm_mc_nodes (x * 2 + 1) pc p)
              (nodeAt1 G.nps4_hbm_mc_nodes (x * 2 + p)) 16000))))
    ++ ((List.range 8).flatMap (fun x =>
      (List.range 4).flatMap (fun y =>
        (List.range 2).flatMap (fun xx =>
          create_bidir_edges (nodeAt1 G.nmu_hbm_nodes (x * 8 + y * 2 + xx))
            (nodeAt G.nps6_hbm_mc_nodes x y) 16000))))
    ++ ((List.range 8).flatMap (fun x =>
      (List.range 4).flatMap (fun y =>
        (List.range 2).flatMap (fun xx =>
          create_bidir_edges (nodeAt G.nps6_hbm_mc_nodes x y)
            (nodeAt1 G.nps4_hbm_mc_nodes (x * 2 + xx)) 16000))))
    ++ ((List.range 4).flatMap (fun row =>
      create_bidir_edges (nodeAt G.nps6_hbm_mc_nodes 0 row)
          (nodeAt G.nps_hbm_nodes 0 row) 16000
        ++ create_bidir_edges (nodeAt G.nps_hbm_nodes 3 row)
            (nodeAt G.nps6_hbm_mc_nodes 7 row) 16000))
    ++ ((List.range (num_col - 1)).flatMap (fun x =>
      (List.range 4).flatMap (fun row =>
        create_bidir_edges (nodeAt G.nps_hbm_nodes x row)
            (nodeAt G.nps6_hbm_mc_nodes (x * 2 + 1) row) 16000
          ++ create_bidir_edges (nodeAt G.nps6_hbm_mc_nodes (x * 2 + 1) row)
              (nodeAt G.nps6_hbm_mc_nodes (x * 2 + 2) row) 16000
          ++ create_bidir_edges (nodeAt G.nps6_hbm_mc_nodes (x * 2 + 2) row)
              (nodeAt G.nps_hbm_nodes (x + 1) row) 16000)))

/-- `vh1582_edges`: concatenation of all edge groups in creation order. -/
def vh1582_edges (G : NocGraphV) (num_slr num_col : Nat)
    (rows_per_slr : List Nat) : List EdgeV :=
  create_nmu_nsu_edges G num_col rows_per_slr
    ++ create_nps_hnoc_edges G num_slr num_col rows_per_slr
    ++ create_ncrb_edges G num_slr num_col
    ++ create_nps_hbm_edges G num_col rows_per_slr.sum
    ++ create_nps_slr0_edges G num_col
    ++ create_hbm_mc_edges G num_col

/-- `vh1582_nocgraph()`: `num_slr = 2`, `num_col = 4`,
`rows_per_slr = [7, 6]`. -/
def vh1582_nocgraph : NocGraphV :=
  let G0 := vh1582_nodes 2 4 [7, 6]
  { G0 with edges := vh1582_edges G0 2 4 [7, 6] }

/-- `NocGraph.get_all_nodes` (`noc_graph.py`): only the `nmu`, `nsu`,
`nps_vnoc`, `nps_hnoc`, `nps_slr0` and `ncrb` tables are listed. -/
def NocGraphV.get_all_nodes (G : NocGraphV) : List NodeName :=
  G.nmu_nodes.flatMap id
    ++ G.nsu_nodes.flatMap id
    ++ G.nps_vnoc_nodes.flatMap id
    ++ G.nps_hnoc_nodes.flatMap id
    ++ G.nps_slr0_nodes.flatMap id
    ++ G.ncrb_nodes.flatMap id

/-- `NocGraph.get_all_edges`: the `(src, dest)` name pairs. -/
def NocGraphV.get_all_edges (G : NocGraphV) : List (NodeName × NodeName) :=
  G.edges.map (fun e => (e.src, e.dest))

/-- The node names of all twelve node families of the constructed graph
(the six of `get_all_nodes` plus the HBM-side families). -/
def NocGraphV.all_family_nodes (G : NocGraphV) : List NodeName :=
  G.get_all_nodes
    ++ G.nps_hbm_nodes.flatMap id
    ++ G.ncrb_hbm_nodes.flatMap id
    ++ G.hbm_mc_nodes.flatMap (fun t => t.flatMap id)
    ++ G.nmu_hbm_nodes
    ++ G.nps4_hbm_mc_nodes
    ++ G.nps6_hbm_mc_nodes.flatMap id

/-! ## Helper facts about the VH1582 graph -/

/-- Coordinate bounds of each node family in the concrete VH1582 graph
(`num_col = 4`, `num_row = 13`, `num_inter_rows = 4`). -/
def isKnownNode : NodeName → Bool
  | NodeName.nmu x y => x < 4 && y < 13
  | NodeName.nsu x y => x < 4 && y < 13
  | NodeName.nps_vnoc x y => x < 4 && y < 26
  | NodeName.nps_hnoc x y => x < 4 && y < 4
  | NodeName.nps_slr0 x y => x < 4 && y < 4
  | NodeName.ncrb x y => x < 3 && y < 4
  | NodeName.nps_hbm x y => x < 4 && y < 4
  | NodeName.ncrb_hbm x y => x < 4 && y < 2
  | NodeName.hbm_mc x pc p => x < 16 && pc < 2 && p < 2
  | NodeName.nmu_hbm x => x < 64
  | NodeName.nps4_hbm_mc x => x < 16
  | NodeName.nps6_hbm_mc x y => x < 8 && y < 4

theorem mem_nodes_table {mk : Nat → Nat → NodeName} {nc nr x y : Nat}
    (hx : x < nc) (hy : y < nr) :
    mk x y ∈ ((List.range nc).map (fun c => create_nodes mk c nr)).flatMap id := by
  simp only [List.mem_flatMap, List.mem_map, List.mem_range, id_eq]
  exact ⟨create_nodes mk x nr, ⟨x, hx, rfl⟩, by
    simp only [create_nodes, List.mem_map, List.mem_range]
    exact ⟨y, hy, rfl⟩⟩

set_option maxRecDepth 10000 in
theorem all_family_eq : vh1582_nocgraph.all_family_nodes =
    ((List.range 4).map (fun c => create_nodes NodeName.nmu c 13)).flatMap id
      ++ (((List.range 4).map (fun c => create_nodes NodeName.nsu c 13)).flatMap id
      ++ (((List.range 4).map (fun c => create_nodes NodeName.nps_vnoc c 26)).flatMap id
      ++ (((List.range 4).map (fun c => create_nodes NodeName.nps_hnoc c 4)).flatMap id
      ++ (((List.range 4).map (fun c => create_nodes NodeName.nps_slr0 c 4)).flatMap id
      ++ (((List.range 3).map (fun c => create_nodes NodeName.ncrb c 4)).flatMap id
      ++ (((List.range 4).map (fun c => create_nodes NodeName.nps_hbm c 4)).flatMap id
      ++ (((List.range 4).map (fun c => create_nodes NodeName.ncrb_hbm c 2)).flatMap id
      ++ (((List.range 16).map (fun x =>
            (List.range 2).map (fun pc =>
              (List.range 2).map (fun p => NodeName.hbm_mc x pc p)))).flatMap
          (fun t => t.flatMap id)
      ++ ((List.range 16).flatMap (fun x =>
            (List.range 4).map (fun xx => NodeName.nmu_hbm (x * 4 + xx)))
      ++ ((List.range 16).map NodeName.nps4_hbm_mc
      ++ ((List.range 8).map
            (fun c => create_nodes NodeName.nps6_hbm_mc c 4)).flatMap id)))))))))) := by
  rfl

theorem known_mem (n : NodeName) (h : isKnownNode n = true) :
    n ∈ vh1582_nocgraph.all_family_nodes := by
  rw [all_family_eq]
  cases n with
  | nmu x y =>
    simp only [isKnownNode, Bool.and_eq_true, decide_eq_true_eq] at h
    exact List.mem_append_left _ (mem_nodes_table h.1 h.2)
  | nsu x y =>
    simp only [isKnownNode, Bool.and_eq_true, decide_eq_true_eq] at h
    exact List.mem_append_right _ (List.mem_append_left _ (mem_nodes_table h.1 h.2))
  | nps_vnoc x y =>
    simp only [isKnownNode, Bool.and_eq_true, decide_eq_true_eq] at h
    exact List.mem_append_right _ (List.mem_append_right _
      (List.mem_append_left _ (mem_nodes_table h.1 h.2)))
  | nps_hnoc x y =>
    simp only [isKnownNode, Bool.and_eq_true, decide_eq_true_eq] at h
    exact List.mem_append_right _ (List.mem_append_right _
      (List.mem_append_right _ (List.mem_append_left _ (mem_nodes_table h.1 h.2))))
  | nps_slr0 x y =>
    simp only [isKnownNode, Bool.and_eq_true, decide_eq_true_eq] at h
    exact List.mem_append_right _ (List.mem_append_right _
      (List.mem_append_right _ (List.mem_append_right _
      (List.mem_append_left _ (mem_nodes_table h.1 h.2)))))
  | ncrb x y =>
    simp only [isKnownNode, Bool.and_eq_true, decide_eq_true_eq] at h
    exact List.mem_append_right _ (List.mem_append_right _
      (List.mem_append_right _ (List.mem_append_right _
      (List.mem_append_right _ (List.mem_append_left _
      (mem_nodes_table h.1 h.2))))))
  | nps_hbm x y =>
    simp only [isKnownNode, Bool.and_eq_true, decide_eq_true_eq] at h
    exact List.mem_append_right _ (List.mem_append_right _
      (List.mem_append_right _ (List.mem_append_right _
      (List.mem_append_right _ (List.mem_append_right _
      (List.mem_append_left _ (mem_nodes_table h.1 h.2)))))))
  | ncrb_hbm x y =>
    simp only [isKnownNode, Bool.and_eq_true, decide_eq_true_eq] at h
    exact List.mem_append_right _ (List.mem_append_right _
      (List.mem_append_right _ (List.mem_append_right _
      (List.mem_append_right _ (List.mem_append_right _
      (List.mem_append_right _ (List.mem_append_left _
      (mem_nodes_table h.1 h.2))))))))
  | hbm_mc x pc p =>
    simp only [isKnownNode, Bool.and_eq_true, decide_eq_true_eq] at h
    refine List.mem_append_right _ (List.mem_append_right _
      (List.mem_append_right _ (List.mem_append_right _
      (List.mem_append_right _ (List.mem_append_right _
      (List.mem_append_right _ (List.mem_append_right _
      (List.mem_append_left _ ?_))))))))
    refine List.mem_flatMap.mpr
      ⟨(List.range 2).map (fun q =>
          (List.range 2).map (fun r => NodeName.hbm_mc x q r)),
        List.mem_map.mpr ⟨x, List.mem_range.mpr h.1.1, rfl⟩, ?_⟩
    refine List.mem_flatMap.mpr
      ⟨(List.range 2).map (fun r => NodeName.hbm_mc x pc r),
        List.mem_map.mpr ⟨pc, List.mem_range.mpr h.1.2, rfl⟩, ?_⟩
    exact List.mem_map.mpr ⟨p, List.mem_range.mpr h.2, rfl⟩
  | nmu_hbm x =>
    simp only [isKnownNode, decide_eq_true_eq] at h
    refine List.mem_append_right _ (List.mem_append_right _
      (List.mem_append_right _ (List.mem_append_right _
      (List.mem_append_right _ (List.mem_append_right _
      (List.mem_append_right _ (List.mem_append_right _
      (List.mem_append_right _ (List.mem_append_left _ ?_)))))))))
    simp only [List.mem_flatMap, List.mem_map, List.mem_range]
    exact ⟨x / 4, by omega, x % 4, by omega,
      congrArg NodeName.nmu_hbm (by omega)⟩
  | nps4_hbm_mc x =>
    simp only [isKnownNode, decide_eq_true_eq] at h
    refine List.mem_append_right _ (List.mem_append_right _
      (List.mem_append_right _ (List.mem_append_right _
      (List.mem_append_right _ (List.mem_append_right _
      (List.mem_append_right _ (List.mem_append_right _
      (List.mem_append_right _ (List.mem_append_right _
      (List.mem_append_left _ ?_))))))))))
    simp only [List.mem_map, List.mem_range]
    exact ⟨x, h, rfl⟩
  | nps6_hbm_mc x y =>
    simp only [isKnownNode, Bool.and_eq_true, decide_eq_true_eq] at h
    exact List.mem_append_right _ (List.mem_append_right _
      (List.mem_append_right _ (List.mem_append_right _
      (List.mem_append_right _ (List.mem_append_right _
      (List.mem_append_right _ (List.mem_append_right _
      (List.mem_append_right _ (List.mem_append_right _
      (List.mem_append_right _ (mem_nodes_table h.1 h.2)))))))))))

set_option maxRecDepth 10000 in
theorem edges_known_bool :
    (vh1582_nocgraph.get_all_edges.all
      (fun e => isKnownNode e.1 && isKnownNode e.2)) = true := by
  rfl

theorem edges_known :
    ∀ e ∈ vh1582_nocgraph.get_all_edges,
      isKnownNode e.1 = true ∧ isKnownNode e.2 = true := by
  intro e he
  have := List.all_eq_true.mp edges_known_bool e he
  exact Bool.and_eq_true_iff.mp this


/-! ## Helper lemmas about linear expressions and binary values -/

theorem evalLin_append (v : IVar → ℚ) (a b : LinExpr) :
    evalLin v (a ++ b) = evalLin v a + evalLin v b := by
  simp [evalLin]

theorem evalLin_map_unit (v : IVar → ℚ) {α : Type} (l : List α)
    (f : α → IVar) :
    evalLin v (l.map (fun a => ((1 : ℚ), f a))) =
      (l.map (fun a => v (f a))).sum := by
  simp only [evalLin, List.map_map]
  refine congrArg List.sum (List.map_congr_left ?_)
  intro a _
  simp [Function.comp]

theorem binary_list_nonneg (l : List ℚ) (hb : ∀ q ∈ l, q = 0 ∨ q = 1) :
    0 ≤ l.sum := by
  induction l with
  | nil => simp
  | cons q l ih =>
    have hq := hb q (List.mem_cons_self q l)
    have hl := ih (fun r hr => hb r (List.mem_cons_of_mem q hr))
    rcases hq with h | h <;> (simp [h]; linarith)

theorem binary_sum_zero_countP (l : List ℚ) (hb : ∀ q ∈ l, q = 0 ∨ q = 1)
    (hs : l.sum = 0) : l.countP (fun q => decide (q = 1)) = 0 := by
  induction l with
  | nil => simp
  | cons q l ih =>
    have hq := hb q (List.mem_cons_self q l)
    have hbl : ∀ r ∈ l, r = 0 ∨ r = 1 :=
      fun r hr => hb r (List.mem_cons_of_mem q hr)
    have hnn := binary_list_nonneg l hbl
    simp only [List.sum_cons] at hs
    rcases hq with h | h
    · subst h
      simp only [List.countP_cons]
      have : l.sum = 0 := by linarith
      simp [ih hbl this]
    · exfalso
      subst h
      linarith

theorem binary_sum_one_countP (l : List ℚ) (hb : ∀ q ∈ l, q = 0 ∨ q = 1)
    (hs : l.sum = 1) : l.countP (fun q => decide (q = 1)) = 1 := by
  induction l with
  | nil => simp at hs
  | cons q l ih =>
    have hq := hb q (List.mem_cons_self q l)
    have hbl : ∀ r ∈ l, r = 0 ∨ r = 1 :=
      fun r hr => hb r (List.mem_cons_of_mem q hr)
    simp only [List.sum_cons] at hs
    rcases hq with h | h
    · subst h
      have : l.sum = 1 := by linarith
      simp only [List.countP_cons]
      simp [ih hbl this]
    · subst h
      have : l.sum = 0 := by linarith
      simp only [List.countP_cons]
      simp [binary_sum_zero_countP l hbl this]

theorem mem_map_le_sum {α : Type} (l : List α) (f : α → ℚ)
    (hf : ∀ a ∈ l, 0 ≤ f a) (a : α) (ha : a ∈ l) : f a ≤ (l.map f).sum := by
  have h : ∀ q ∈ l.map f, 0 ≤ q := by
    intro q hq
    obtain ⟨b, hb, rfl⟩ := List.mem_map.mp hq
    exact hf b hb
  exact List.single_le_sum h (f a) (List.mem_map_of_mem f ha)

theorem pair_le_map_sum {α : Type} (l : List α) (f : α → ℚ)
    (hf : ∀ a ∈ l, 0 ≤ f a) (a b : α) (ha : a ∈ l) (hb : b ∈ l)
    (hne : a ≠ b) : f a + f b ≤ (l.map f).sum := by
  induction l with
  | nil => cases ha
  | cons c l ih =>
    have hfl : ∀ d ∈ l, 0 ≤ f d :=
      fun d hd => hf d (List.mem_cons_of_mem c hd)
    rcases List.mem_cons.mp ha with rfl | ha'
    · have hb' : b ∈ l := by
        rcases List.mem_cons.mp hb with rfl | hb'
        · exact absurd rfl hne
        · exact hb'
      simp only [List.map_cons, List.sum_cons]
      have := mem_map_le_sum l f hfl b hb'
      linarith
    · rcases List.mem_cons.mp hb with rfl | hb'
      · simp only [List.map_cons, List.sum_cons]
        have := mem_map_le_sum l f hfl a ha'
        linarith
      · simp only [List.map_cons, List.sum_cons]
        have := ih hfl ha' hb'
        have := hf c (List.mem_cons_self c l)
        linarith

/-! ## Claim theorems -/

/-- C1: for every stream `s` given to the ILP selector, the built model
contains the selection constraints `Σ_{n ∈ src} y_s_n + unmapped_s = 1`
and `Σ_{n ∈ dest} z_s_n + unmapped_s = 1`; consequently, under any
binary valuation satisfying the model, a mapped stream (`unmapped_s = 0`)
has exactly one chosen ingress among its admissible source nodes and
exactly one chosen egress among its admissible destination nodes. -/
theorem c1_selection_constraints
    (q : ℚ) (g : NocGraphIfc) (sn : StreamsNodes) (sbw : StreamsBw)
    (mm : MmapNoc) (mbw : MmapBw) (s : String) (en : EndNodes)
    (hs : (s, en) ∈ sn) :
    Constr.eqC ((en.src.map (fun n => ((1 : ℚ), IVar.y s n)))
        ++ [((1 : ℚ), IVar.notMapped s)]) 1
      ∈ ilpModelConstraints q g sn sbw mm mbw
    ∧ Constr.eqC ((en.dest.map (fun n => ((1 : ℚ), IVar.z s n)))
        ++ [((1 : ℚ), IVar.notMapped s)]) 1
      ∈ ilpModelConstraints q g sn sbw mm mbw
    ∧ ∀ v, BinaryVal v → satModel v (ilpModelConstraints q g sn sbw mm mbw) →
        v (IVar.notMapped s) = 0 →
        en.src.countP (fun n => decide (v (IVar.y s n) = 1)) = 1
        ∧ en.dest.countP (fun n => decide (v (IVar.z s n) = 1)) = 1 := by
  have h1 : Constr.eqC ((en.src.map (fun n => ((1 : ℚ), IVar.y s n)))
      ++ [((1 : ℚ), IVar.notMapped s)]) 1 ∈ streamSrcSelConstr sn :=
    List.mem_map_of_mem _ hs
  have h2 : Constr.eqC ((en.dest.map (fun n => ((1 : ℚ), IVar.z s n)))
      ++ [((1 : ℚ), IVar.notMapped s)]) 1 ∈ streamDestSelConstr sn :=
    List.mem_map_of_mem _ hs
  have hm1 : Constr.eqC ((en.src.map (fun n => ((1 : ℚ), IVar.y s n)))
      ++ [((1 : ℚ), IVar.notMapped s)]) 1
      ∈ ilpModelConstraints q g sn sbw mm mbw := by
    unfold ilpModelConstraints addStreamConstr
    exact List.mem_append_left _ (List.mem_append_left _
      (List.mem_append_left _ (List.mem_append_left _
      (List.mem_append_left _ (List.mem_append_left _ h1)))))
  have hm2 : Constr.eqC ((en.dest.map (fun n => ((1 : ℚ), IVar.z s n)))
      ++ [((1 : ℚ), IVar.notMapped s)]) 1
      ∈ ilpModelConstraints q g sn sbw mm mbw := by
    unfold ilpModelConstraints addStreamConstr
    exact List.mem_append_left _ (List.mem_append_left _
      (List.mem_append_left _ (List.mem_append_left _
      (List.mem_append_left _ (List.mem_append_right _ h2)))))
  refine ⟨hm1, hm2, ?_⟩
  intro v hbin hsat hnm
  constructor
  · have hc := hsat _ hm1
    simp only [satConstr] at hc
    rw [evalLin_append, evalLin_map_unit] at hc
    have hone : evalLin v [((1 : ℚ), IVar.notMapped s)] = v (IVar.notMapped s) := by
      simp [evalLin]
    rw [hone, hnm, add_zero] at hc
    have hb : ∀ r ∈ en.src.map (fun n => v (IVar.y s n)), r = 0 ∨ r = 1 := by
      intro r hr
      obtain ⟨n, _, rfl⟩ := List.mem_map.mp hr
      exact hbin (IVar.y s n)
    have := binary_sum_one_countP _ hb hc
    rwa [List.countP_map] at this
  · have hc := hsat _ hm2
    simp only [satConstr] at hc
    rw [evalLin_append, evalLin_map_unit] at hc
    have hone : evalLin v [((1 : ℚ), IVar.notMapped s)] = v (IVar.notMapped s) := by
      simp [evalLin]
    rw [hone, hnm, add_zero] at hc
    have hb : ∀ r ∈ en.dest.map (fun n => v (IVar.z s n)), r = 0 ∨ r = 1 := by
      intro r hr
      obtain ⟨n, _, rfl⟩ := List.mem_map.mp hr
      exact hbin (IVar.z s n)
    have := binary_sum_one_countP _ hb hc
    rwa [List.countP_map] at this

/-- C3: the built model contains, for every NMU node, the exclusivity
constraint bounding the `y` choices by `1` minus the number of MMAP
ports bound to that node, and for every NSU node the `z` bound `≤ 1`;
consequently, under any satisfying binary valuation, two distinct
streams never both choose the same ingress node, nor the same egress
node. -/
theorem c3_endpoint_exclusivity
    (q : ℚ) (g : NocGraphIfc) (sn : StreamsNodes) (sbw : StreamsBw)
    (mm : MmapNoc) (mbw : MmapBw) :
    (∀ node ∈ g.nmuNodes,
      Constr.leC ((sn.filter (fun se => node ∈ se.2.src)).map
          (fun se => ((1 : ℚ), IVar.y se.1 node)))
        (1 - ((mm.filter (fun pe => node = pe.2.1)).length : ℚ))
        ∈ ilpModelConstraints q g sn sbw mm mbw)
    ∧ (∀ node ∈ g.nsuNodes,
      Constr.leC ((sn.filter (fun se => node ∈ se.2.dest)).map
          (fun se => ((1 : ℚ), IVar.z se.1 node))) 1
        ∈ ilpModelConstraints q g sn sbw mm mbw)
    ∧ ∀ v, BinaryVal v → satModel v (ilpModelConstraints q g sn sbw mm mbw) →
        ∀ s₁ en₁ s₂ en₂, (s₁, en₁) ∈ sn → (s₂, en₂) ∈ sn → s₁ ≠ s₂ →
          (∀ n ∈ g.nmuNodes, n ∈ en₁.src → n ∈ en₂.src →
            ¬(v (IVar.y s₁ n) = 1 ∧ v (IVar.y s₂ n) = 1))
          ∧ (∀ n ∈ g.nsuNodes, n ∈ en₁.dest → n ∈ en₂.dest →
            ¬(v (IVar.z s₁ n) = 1 ∧ v (IVar.z s₂ n) = 1)) := by
  have hmemN : ∀ node ∈ g.nmuNodes,
      Constr.leC ((sn.filter (fun se => node ∈ se.2.src)).map
          (fun se => ((1 : ℚ), IVar.y se.1 node)))
        (1 - ((mm.filter (fun pe => node = pe.2.1)).length : ℚ))
        ∈ ilpModelConstraints q g sn sbw mm mbw := by
    intro node hn
    unfold ilpModelConstraints addStreamConstr
    exact List.mem_append_left _ (List.mem_append_left _
      (List.mem_append_left _
        (List.mem_append_right _ (List.mem_map_of_mem _ hn))))
  have hmemS : ∀ node ∈ g.nsuNodes,
      Constr.leC ((sn.filter (fun se => node ∈ se.2.dest)).map
          (fun se => ((1 : ℚ), IVar.z se.1 node))) 1
        ∈ ilpModelConstraints q g sn sbw mm mbw := by
    intro node hn
    unfold ilpModelConstraints addStreamConstr
    exact List.mem_append_left _ (List.mem_append_left _
      (List.mem_append_right _ (List.mem_map_of_mem _ hn)))
  refine ⟨hmemN, hmemS, ?_⟩
  intro v hbin hsat s₁ en₁ s₂ en₂ h₁ h₂ hne
  constructor
  · intro n hn hns₁ hns₂ ⟨hv₁, hv₂⟩
    have hc := hsat _ (hmemN n hn)
    simp only [satConstr] at hc
    rw [evalLin_map_unit] at hc
    have hf₁ : (s₁, en₁) ∈ sn.filter (fun se => n ∈ se.2.src) :=
      List.mem_filter.mpr ⟨h₁, by simpa using hns₁⟩
    have hf₂ : (s₂, en₂) ∈ sn.filter (fun se => n ∈ se.2.src) :=
      List.mem_filter.mpr ⟨h₂, by simpa using hns₂⟩
    have hnn : ∀ se ∈ sn.filter (fun se => n ∈ se.2.src),
        0 ≤ v (IVar.y se.1 n) := by
      intro se _
      rcases hbin (IVar.y se.1 n) with h | h <;> simp [h]
    have hpair := pair_le_map_sum _ (fun se => v (IVar.y se.1 n)) hnn
      (s₁, en₁) (s₂, en₂) hf₁ hf₂
      (fun h => hne (congrArg Prod.fst h))
    simp only [hv₁, hv₂] at hpair
    have hk : (0 : ℚ) ≤ ((mm.filter (fun pe => n = pe.2.1)).length : ℚ) := by
      positivity
    linarith
  · intro n hn hns₁ hns₂ ⟨hv₁, hv₂⟩
    have hc := hsat _ (hmemS n hn)
    simp only [satConstr] at hc
    rw [evalLin_map_unit] at hc
    have hf₁ : (s₁, en₁) ∈ sn.filter (fun se => n ∈ se.2.dest) :=
      List.mem_filter.mpr ⟨h₁, by simpa using hns₁⟩
    have hf₂ : (s₂, en₂) ∈ sn.filter (fun se => n ∈ se.2.dest) :=
      List.mem_filter.mpr ⟨h₂, by simpa using hns₂⟩
    have hnn : ∀ se ∈ sn.filter (fun se => n ∈ se.2.dest),
        0 ≤ v (IVar.z se.1 n) := by
      intro se _
      rcases hbin (IVar.z se.1 n) with h | h <;> simp [h]
    have hpair := pair_le_map_sum _ (fun se => v (IVar.z se.1 n)) hnn
      (s₁, en₁) (s₂, en₂) hf₁ hf₂
      (fun h => hne (congrArg Prod.fst h))
    simp only [hv₁, hv₂] at hpair
    linarith

/-- C2: for every edge of the graph, the built model contains the
capacity constraint whose left side sums, per stream, the rounded
bandwidth times `x_s_e`, and per MMAP port the forward coefficient
`rd/16 + wr·(1/16 + 1)` times `x_p_e` and the return coefficient
`rd + wr/16` times `x_ret_p_e`, bounded by the edge bandwidth; any
satisfying valuation keeps the weighted load at most the capacity; and
(for a positive granularity) the per-stream coefficient is the bandwidth
rounded *up* to a multiple of the granularity. -/
theorem c2_capacity_constraints
    (q : ℚ) (g : NocGraphIfc) (sn : StreamsNodes) (sbw : StreamsBw)
    (mm : MmapNoc) (mbw : MmapBw) (e : NEdge) (he : e ∈ g.edges) :
    Constr.leC (bwConstrLhs q sbw mbw (e.src, e.dest)) e.bandwidth
      ∈ ilpModelConstraints q g sn sbw mm mbw
    ∧ (∀ v, satModel v (ilpModelConstraints q g sn sbw mm mbw) →
        evalLin v (bwConstrLhs q sbw mbw (e.src, e.dest)) ≤ e.bandwidth)
    ∧ (0 < q → ∀ sb ∈ sbw, sb.2 ≤ round_up_to_noc_bw q sb.2
        ∧ ∃ k : ℤ, round_up_to_noc_bw q sb.2 = q * k) := by
  have hmem : Constr.leC (bwConstrLhs q sbw mbw (e.src, e.dest)) e.bandwidth
      ∈ ilpModelConstraints q g sn sbw mm mbw := by
    unfold ilpModelConstraints addBwConstr
    exact List.mem_append_right _ (List.mem_map_of_mem _ he)
  refine ⟨hmem, ?_, ?_⟩
  · intro v hsat
    exact hsat _ hmem
  · intro hq sb _
    constructor
    · have hle : sb.2 / q ≤ (⌈sb.2 / q⌉ : ℚ) := Int.le_ceil _
      have := (div_le_iff₀ hq).mp hle
      rw [round_up_to_noc_bw, mul_comm]
      exact this
    · exact ⟨⌈sb.2 / q⌉, rfl⟩

/-- The sense of `LpProblem("noc", LpMinimize)`. -/
inductive LpSense : Type
  | minimize
  | maximize
deriving DecidableEq

/-- `ilp_noc_selector` creates its problem with `LpMinimize`. -/
def ilp_noc_selector_sense : LpSense := LpSense.minimize

theorem evalLin_map_gen {α : Type} (v : IVar → ℚ) (l : List α)
    (c : α → ℚ) (f : α → IVar) :
    evalLin v (l.map (fun a => (c a, f a))) =
      (l.map (fun a => c a * v (f a))).sum := by
  simp only [evalLin, List.map_map]
  refine congrArg List.sum (List.map_congr_left ?_)
  intro a _
  simp [Function.comp]

theorem evalLin_flatMap {α : Type} (v : IVar → ℚ) (l : List α)
    (f : α → LinExpr) :
    evalLin v (l.flatMap f) = (l.map (fun a => evalLin v (f a))).sum := by
  induction l with
  | nil => simp [evalLin]
  | cons a l ih => simp [List.flatMap_cons, evalLin_append, ih]

/-- Characterization of `get_stream_manhattan_bw`: every entry is the
input bandwidth times the stream's Manhattan distance. -/
theorem manhattan_bw_eq (slots : StreamsSlots) (sbw : StreamsBw)
    (dl : List (String × Int)) (mbw : StreamsBw)
    (hd : get_stream_manhattan_dist slots = some dl)
    (hm : get_stream_manhattan_bw slots sbw = some mbw) :
    mbw = sbw.map (fun sb =>
      (sb.1, sb.2 * (((dl.lookup sb.1).getD 0 : ℤ) : ℚ))) := by
  unfold get_stream_manhattan_bw at hm
  rw [hd] at hm
  simp only [Option.bind_eq_bind, Option.some_bind] at hm
  induction sbw generalizing mbw with
  | nil =>
    simp only [manhattanBwList, Option.some_inj] at hm
    simp [hm.symm]
  | cons sb l ih =>
    rw [manhattanBwList] at hm
    cases hl : dl.lookup sb.1 with
    | none => rw [hl] at hm; simp at hm
    | some d =>
      rw [hl] at hm
      simp only [Option.bind_eq_bind, Option.some_bind] at hm
      cases hrest : manhattanBwList dl l with
      | none => rw [hrest] at hm; simp at hm
      | some bs =>
        rw [hrest] at hm
        simp only [Option.some_bind, Option.pure_def, Option.some_inj] at hm
        subst hm
        simp only [List.map_cons, List.cons.injEq]
        exact ⟨by rw [hl]; rfl, ih bs hrest⟩

/-- C4: the model is a minimization, and the objective handed to the
solver evaluates to `Σ_s bw(s)·dist(s)·unmapped_s + 300·Σ_s Σ_e x_s_e`,
where `dist(s)` is the stream's Manhattan distance. -/
theorem c4_objective
    (g : NocGraphIfc) (sn : StreamsNodes) (slots : StreamsSlots)
    (sbw : StreamsBw) (dl : List (String × Int)) (obj : LinExpr)
    (hd : get_stream_manhattan_dist slots = some dl)
    (hobj : ilpObjective g sn slots sbw = some obj) :
    ilp_noc_selector_sense = LpSense.minimize
    ∧ ∀ v, evalLin v obj
      = (sbw.map (fun sb =>
          sb.2 * (((dl.lookup sb.1).getD 0 : ℤ) : ℚ)
            * v (IVar.notMapped sb.1))).sum
        + 300 * (sn.map (fun se =>
            (g.allEdges.map (fun e => v (IVar.x se.1 e))).sum)).sum := by
  refine ⟨rfl, ?_⟩
  intro v
  unfold ilpObjective at hobj
  cases hm : get_stream_manhattan_bw slots sbw with
  | none => rw [hm] at hobj; simp at hobj
  | some mbw =>
    rw [hm] at hobj
    simp only [Option.bind_eq_bind, Option.some_bind, Option.pure_def,
      Option.some_inj] at hobj
    subst hobj
    have hmbw := manhattan_bw_eq slots sbw dl mbw hd hm
    subst hmbw
    rw [addObj, evalLin_append]
    congr 1
    · rw [List.map_map]
      rw [show ((fun sb => ((sb.2 : ℚ), IVar.notMapped sb.1)) ∘
          (fun sb : String × ℚ =>
            (sb.1, sb.2 * (((dl.lookup sb.1).getD 0 : ℤ) : ℚ))))
          = (fun sb : String × ℚ =>
            (sb.2 * (((dl.lookup sb.1).getD 0 : ℤ) : ℚ),
              IVar.notMapped sb.1)) from rfl]
      rw [evalLin_map_gen v sbw
        (fun sb => sb.2 * (((dl.lookup sb.1).getD 0 : ℤ) : ℚ))
        (fun sb => IVar.notMapped sb.1)]
    · rw [evalLin_flatMap]
      rw [← List.sum_map_mul_left]
      refine congrArg List.sum (List.map_congr_left ?_)
      intro se _
      rw [evalLin_map_gen v g.allEdges (fun _ => (300 : ℚ))
        (fun e => IVar.x se.1 e)]
      rw [List.sum_map_mul_left]

/-- Manhattan distance is symmetric in the two slot-range strings,
whatever the parses do. -/
theorem streamManhattanDist_comm (a b : String) :
    streamManhattanDist a b = streamManhattanDist b a := by
  unfold streamManhattanDist
  cases h₁ : extract_slot_coord ((pySplit a "_TO_").headD "") with
  | none =>
    cases h₂ : extract_slot_coord ((pySplit b "_TO_").headD "") <;> simp
  | some c =>
    cases h₂ : extract_slot_coord ((pySplit b "_TO_").headD "") with
    | none => simp
    | some d =>
      simp only [Option.bind_eq_bind, Option.some_bind, Option.pure_def,
        Option.some_inj]
      rw [abs_sub_comm d.1 c.1, abs_sub_comm d.2 c.2]

/-- The first cell of `extract_slot_range` is the parsed lower-left
corner, i.e. exactly the coordinate that
`extract_slot_coord(range.split("_TO_")[0])` yields. -/
theorem extract_slot_range_head (r : String) (l : List (Int × Int))
    (h : extract_slot_range r = some l) :
    ∃ c, l.head? = some c
      ∧ extract_slot_coord ((pySplit r "_TO_").headD "") = some c := by
  unfold extract_slot_range at h
  dsimp only [] at h
  cases hp0 : (pySplit r "_TO_")[0]? with
  | none => rw [hp0] at h; simp at h
  | some p0 =>
    rw [hp0] at h
    cases hp1 : (pySplit r "_TO_")[1]? with
    | none => rw [hp1] at h; simp at h
    | some p1 =>
      rw [hp1] at h
      simp only [Option.bind_eq_bind, Option.some_bind] at h
      cases hll : extract_slot_coord p0 with
      | none => rw [hll] at h; simp at h
      | some ll =>
        rw [hll] at h
        cases hur : extract_slot_coord p1 with
        | none => rw [hur] at h; simp at h
        | some ur =>
          rw [hur] at h
          simp only [Option.some_bind] at h
          by_cases hcond : ll.1 ≤ ur.1 ∧ ll.2 ≤ ur.2
          · rw [if_pos hcond] at h
            simp only [Option.pure_def, Option.some_inj] at h
            subst h
            refine ⟨ll, ?_, ?_⟩
            · cases hnx : (ur.1 + 1 - ll.1).toNat with
              | zero => exfalso; omega
              | succ k =>
                cases hny : (ur.2 + 1 - ll.2).toNat with
                | zero => exfalso; omega
                | succ j =>
                  rw [List.range_succ_eq_map]
                  simp [List.range_succ_eq_map]
            · have hkey : (pySplit r "_TO_").headD "" = p0 := by
                cases hsp : pySplit r "_TO_" with
                | nil => rw [hsp] at hp0; simp at hp0
                | cons a t =>
                  rw [hsp] at hp0
                  simp only [List.getElem?_cons_zero, Option.some_inj] at hp0
                  rw [hp0]
                  rfl
              rw [hkey, hll]
          · rw [if_neg hcond] at h
            simp at h

/-- C8: for two slot ranges, the stream's Manhattan distance is
`|x₂−x₁| + |y₂−y₁|` computed from the lower-left corner (the first cell)
of each expanded range, and it is invariant under swapping source and
destination. -/
theorem c8_manhattan_lower_left
    (r₁ r₂ : String) (l₁ l₂ : List (Int × Int)) (c₁ c₂ : Int × Int)
    (h₁ : extract_slot_range r₁ = some l₁) (hc₁ : l₁.head? = some c₁)
    (h₂ : extract_slot_range r₂ = some l₂) (hc₂ : l₂.head? = some c₂) :
    streamManhattanDist r₁ r₂ = some (|c₂.1 - c₁.1| + |c₂.2 - c₁.2|)
    ∧ streamManhattanDist r₁ r₂ = streamManhattanDist r₂ r₁ := by
  obtain ⟨d₁, hd₁, hp₁⟩ := extract_slot_range_head r₁ l₁ h₁
  obtain ⟨d₂, hd₂, hp₂⟩ := extract_slot_range_head r₂ l₂ h₂
  rw [hc₁] at hd₁
  rw [hc₂] at hd₂
  cases hd₁
  cases hd₂
  refine ⟨?_, streamManhattanDist_comm r₁ r₂⟩
  unfold streamManhattanDist
  rw [hp₁, hp₂]
  rfl

/-- C5: `print_ordered_edges` on a selected-edge set that is a pure
cycle: the cycle is detected (`onCycle` holds for its nodes) and the
function *returns normally* with the (empty) sorted remainder printed —
no exception of any kind, and in particular no `PathExtractionFailure`
(no such exception class exists anywhere in the code), is raised. -/
theorem c5_print_ordered_edges_returns_normally :
    onCycle [("a", "b"), ("b", "a")] "a" = true
    ∧ onCycle [("a", "b"), ("b", "a")] "b" = true
    ∧ print_ordered_edges [("a", "b"), ("b", "a")]
        = ExtractOutcome.sortedPrinted [] := by
  refine ⟨by decide, by decide, by decide⟩

/-- A feasibility-style witness graph for the decision-extraction
claims: one stream from ingress `a` to egress `d` with two disjoint
two-hop routes. -/
def c7Graph : NocGraphIfc :=
  { edges := [⟨"a", "b", 16000⟩, ⟨"b", "d", 16000⟩,
      ⟨"a", "c", 16000⟩, ⟨"c", "d", 16000⟩],
    allNodes := ["a", "b", "c", "d"],
    nmuNodes := ["a"],
    nsuNodes := ["d"] }

/-- The `streams_nodes` of that scenario. -/
def c7Streams : StreamsNodes := [("s", ⟨["a"], ["d"]⟩)]

/-- A solver valuation routing the stream `a → b → d`. -/
def c7Val1 : IVar → ℚ
  | IVar.y "s" "a" => 1
  | IVar.z "s" "d" => 1
  | IVar.x "s" ("a", "b") => 1
  | IVar.x "s" ("b", "d") => 1
  | _ => 0

/-- A solver valuation routing the stream `a → c → d`. -/
def c7Val2 : IVar → ℚ
  | IVar.y "s" "a" => 1
  | IVar.z "s" "d" => 1
  | IVar.x "s" ("a", "c") => 1
  | IVar.x "s" ("c", "d") => 1
  | _ => 0

/-- C7 counterexample: two solver valuations that route the same stream
along *different* paths (different selected edges, different printed
orders) produce the *same* return value of `post_process_noc_ilp` (and
hence of `ilp_noc_selector`).  The returned Assignment therefore does
not define the ordered node path of a mapped stream — only its endpoint
pair. -/
theorem c7_counterexample :
    post_process_noc_ilp c7Val1 c7Streams = post_process_noc_ilp c7Val2 c7Streams
    ∧ post_process_noc_ilp c7Val1 c7Streams = (["s"], [("s", "a", "d")])
    ∧ selectedEdges c7Val1 c7Graph "s" = [("a", "b"), ("b", "d")]
    ∧ selectedEdges c7Val2 c7Graph "s" = [("a", "c"), ("c", "d")]
    ∧ print_ordered_edges (selectedEdges c7Val1 c7Graph "s")
        = ExtractOutcome.sortedPrinted ["a", "b", "d"]
    ∧ print_ordered_edges (selectedEdges c7Val2 c7Graph "s")
        = ExtractOutcome.sortedPrinted ["a", "c", "d"] := by
  refine ⟨by decide, by decide, by decide, by decide, by decide, by decide⟩

/-- The per-stream entry of the returned `noc_streams` list. -/
def ppName (v : IVar → ℚ) (se : String × EndNodes) : Option String :=
  if pyTruthy (firstChosen v (IVar.y se.1) se.2.src)
      ∧ pyTruthy (firstChosen v (IVar.z se.1) se.2.dest) then
    some se.1
  else none

/-- The per-stream entry of the returned `node_loc` dict: exactly the
endpoint pair. -/
def ppLoc (v : IVar → ℚ) (se : String × EndNodes) :
    Option (String × String × String) :=
  if pyTruthy (firstChosen v (IVar.y se.1) se.2.src)
      ∧ pyTruthy (firstChosen v (IVar.z se.1) se.2.dest) then
    some (se.1, (firstChosen v (IVar.y se.1) se.2.src).getD "",
      (firstChosen v (IVar.z se.1) se.2.dest).getD "")
  else none

theorem ppFoldl (v : IVar → ℚ) (sn : StreamsNodes)
    (acc : List String × List (String × String × String)) :
    sn.foldl (ppStep v) acc
      = (acc.1 ++ sn.filterMap (ppName v), acc.2 ++ sn.filterMap (ppLoc v)) := by
  induction sn generalizing acc with
  | nil => simp
  | cons se sn ih =>
    rw [List.foldl_cons, ih]
    by_cases hcond : pyTruthy (firstChosen v (IVar.y se.1) se.2.src)
        ∧ pyTruthy (firstChosen v (IVar.z se.1) se.2.dest)
    · rw [List.filterMap_cons, List.filterMap_cons]
      rw [show ppName v se = some se.1 from if_pos hcond]
      rw [show ppLoc v se
          = some (se.1, (firstChosen v (IVar.y se.1) se.2.src).getD "",
            (firstChosen v (IVar.z se.1) se.2.dest).getD "")
          from if_pos hcond]
      rw [show ppStep v acc se
          = (acc.1 ++ [se.1],
            acc.2 ++ [(se.1, (firstChosen v (IVar.y se.1) se.2.src).getD "",
              (firstChosen v (IVar.z se.1) se.2.dest).getD "")])
          from if_pos hcond]
      simp
    · rw [List.filterMap_cons, List.filterMap_cons]
      rw [show ppName v se = none from if_neg hcond]
      rw [show ppLoc v se = none from if_neg hcond]
      rw [show ppStep v acc se = acc from if_neg hcond]

/-- C7 amended: the value returned by `post_process_noc_ilp` (and hence
by `ilp_noc_selector`) consists of exactly the mapped stream names and,
per mapped stream, the `(ingress, egress)` endpoint pair — the ordered
node path is printed to stdout but is not part of the Assignment. -/
theorem c7_assignment_is_endpoints_only (v : IVar → ℚ) (sn : StreamsNodes) :
    post_process_noc_ilp v sn
      = (sn.filterMap (ppName v), sn.filterMap (ppLoc v)) := by
  rw [post_process_noc_ilp, ppFoldl]
  simp

/-- A concrete mapped-stream FIFO of odd depth 17. -/
def fifoOdd : FifoIR :=
  { name := "st",
    parameters := [⟨"DEPTH", "17"⟩, ⟨"BODY_LEVEL", "2"⟩,
      ⟨"__HEAD_REGION", "\"SLOT_X0Y0\""⟩, ⟨"__TAIL_REGION", "\"SLOT_X1Y0\""⟩,
      ⟨"DATA_WIDTH", "33"⟩],
    connections := [⟨"if_dout", "st_dout"⟩, ⟨"if_empty_n", "st_empty_n"⟩,
      ⟨"if_read", "st_read"⟩, ⟨"if_din", "st_din"⟩,
      ⟨"if_full_n", "st_full_n"⟩, ⟨"if_write", "st_write"⟩] }

/-- The parsed parameters of `fifoOdd`. -/
def fpOdd : FifoParams :=
  { depth := 17, head_region := "\"SLOT_X0Y0\"",
    tail_region := "\"SLOT_X1Y0\"", data_width := 32 }

/-- C6 counterexample: for an original depth of 17 the claim asserts an
NMU-side depth of `⌈17/2⌉ = 9`, but `create_nmu_fifo_ir` halves the
depth with Python floor division and emits `"8"`. -/
theorem c6_counterexample :
    parse_fifo_params fifoOdd = some fpOdd
    ∧ (create_nmu_fifo_ir fifoOdd fpOdd (m_axis_ports_of "st")).parameters.find?
        (fun p => p.name = "DEPTH") = some ⟨"DEPTH", "8"⟩
    ∧ ⌈(17 : ℚ) / 2⌉ = 9
    ∧ ("8" : String) ≠ "9" := by
  refine ⟨by rfl, by rfl, ?_, by decide⟩
  norm_num
  rw [Int.ceil_eq_iff]
  norm_num

/-- C6 amended: for a FIFO with parsed depth `D`, head region `H`, tail
region `T`, the transformation produces an NMU-side FIFO named
`nmu_<name>` of depth `⌊D/2⌋` (Python `// 2`; for odd `D` that is
`(D−1)/2`, not `(D+1)/2`) with zero body-pipeline levels and every
region parameter set to `H`, and an NSU-side FIFO named `nsu_<name>` of
depth `⌊D/2⌋` with zero body-pipeline levels and every region parameter
set to `T`. -/
theorem c6_fifo_split (fifo : FifoIR) (fp : FifoParams)
    (mA sA : AxisPorts) (_hp : parse_fifo_params fifo = some fp) :
    (create_nmu_fifo_ir fifo fp mA).name = "nmu_" ++ fifo.name
    ∧ (create_nsu_fifo_ir fifo fp sA).name = "nsu_" ++ fifo.name
    ∧ (∀ p ∈ fifo.parameters, p.name = "DEPTH" →
        (⟨p.name, toString (Int.fdiv fp.depth 2)⟩ : ParamIR)
          ∈ (create_nmu_fifo_ir fifo fp mA).parameters
        ∧ (⟨p.name, toString (Int.fdiv fp.depth 2)⟩ : ParamIR)
          ∈ (create_nsu_fifo_ir fifo fp sA).parameters)
    ∧ (∀ p ∈ fifo.parameters, p.name = "BODY_LEVEL" →
        (⟨p.name, "0"⟩ : ParamIR) ∈ (create_nmu_fifo_ir fifo fp mA).parameters
        ∧ (⟨p.name, "0"⟩ : ParamIR) ∈ (create_nsu_fifo_ir fifo fp sA).parameters)
    ∧ (∀ p ∈ fifo.parameters, containsREGION p.name = true →
        p.name ≠ "DEPTH" → p.name ≠ "BODY_LEVEL" →
        (⟨p.name, fp.head_region⟩ : ParamIR)
          ∈ (create_nmu_fifo_ir fifo fp mA).parameters
        ∧ (⟨p.name, fp.tail_region⟩ : ParamIR)
          ∈ (create_nsu_fifo_ir fifo fp sA).parameters)
    ∧ (fp.depth % 2 = 1 → 2 * Int.fdiv fp.depth 2 = fp.depth - 1) := by
  refine ⟨rfl, rfl, ?_, ?_, ?_, ?_⟩
  · intro p hpmem hname
    constructor
    · refine List.mem_map.mpr ⟨p, hpmem, ?_⟩
      show (if p.name = "DEPTH" then
          { p with expr := toString (Int.fdiv fp.depth 2) }
        else if p.name = "BODY_LEVEL" then { p with expr := "0" }
        else if containsREGION p.name then { p with expr := fp.head_region }
        else p) = _
      rw [if_pos hname, hname]
    · refine List.mem_map.mpr ⟨p, hpmem, ?_⟩
      show (if p.name = "DEPTH" then
          { p with expr := toString (Int.fdiv fp.depth 2) }
        else if p.name = "BODY_LEVEL" then { p with expr := "0" }
        else if containsREGION p.name then { p with expr := fp.tail_region }
        else p) = _
      rw [if_pos hname, hname]
  · intro p hpmem hname
    have hnd : p.name ≠ "DEPTH" := by rw [hname]; decide
    constructor
    · refine List.mem_map.mpr ⟨p, hpmem, ?_⟩
      show (if p.name = "DEPTH" then
          { p with expr := toString (Int.fdiv fp.depth 2) }
        else if p.name = "BODY_LEVEL" then { p with expr := "0" }
        else if containsREGION p.name then { p with expr := fp.head_region }
        else p) = _
      rw [if_neg hnd, if_pos hname, hname]
    · refine List.mem_map.mpr ⟨p, hpmem, ?_⟩
      show (if p.name = "DEPTH" then
          { p with expr := toString (Int.fdiv fp.depth 2) }
        else if p.name = "BODY_LEVEL" then { p with expr := "0" }
        else if containsREGION p.name then { p with expr := fp.tail_region }
        else p) = _
      rw [if_neg hnd, if_pos hname, hname]
  · intro p hpmem hreg hnd hnb
    constructor
    · refine List.mem_map.mpr ⟨p, hpmem, ?_⟩
      show (if p.name = "DEPTH" then
          { p with expr := toString (Int.fdiv fp.depth 2) }
        else if p.name = "BODY_LEVEL" then { p with expr := "0" }
        else if containsREGION p.name then { p with expr := fp.head_region }
        else p) = _
      rw [if_neg hnd, if_neg hnb, if_pos hreg]
    · refine List.mem_map.mpr ⟨p, hpmem, ?_⟩
      show (if p.name = "DEPTH" then
          { p with expr := toString (Int.fdiv fp.depth 2) }
        else if p.name = "BODY_LEVEL" then { p with expr := "0" }
        else if containsREGION p.name then { p with expr := fp.tail_region }
        else p) = _
      rw [if_neg hnd, if_neg hnb, if_pos hreg]
  · intro hodd
    have := Int.emod_emod_of_dvd fp.depth (dvd_refl 2)
    have hfm := Int.fdiv_add_fmod fp.depth 2
    have : fp.depth.fmod 2 = fp.depth % 2 := Int.fmod_eq_emod _ (by norm_num)
    omega

set_option maxRecDepth 40000 in
/-- C9 counterexample: the VH1582 graph's edge list contains the HBM
feeder edge `ncrb_hbm_x0y0 → nps_vnoc_x0y24` (created by
`create_nps_hbm_edges`), but `get_all_nodes()` does not list
`ncrb_hbm_x0y0` — the claim that every edge endpoint is a member of
`get_all_nodes()` fails. -/
theorem c9_counterexample :
    (NodeName.ncrb_hbm 0 0, NodeName.nps_vnoc 0 24)
      ∈ vh1582_nocgraph.get_all_edges
    ∧ NodeName.ncrb_hbm 0 0 ∉ vh1582_nocgraph.get_all_nodes := by
  refine ⟨by decide, by decide⟩

/-- C9 amended: every endpoint of every edge of the constructed VH1582
graph is a node of one of the graph's twelve node tables
(`get_all_nodes()` plus the HBM-side families, which `get_all_nodes()`
omits). -/
theorem c9_edges_in_family_tables :
    ∀ e ∈ vh1582_nocgraph.get_all_edges,
      e.1 ∈ vh1582_nocgraph.all_family_nodes
      ∧ e.2 ∈ vh1582_nocgraph.all_family_nodes := by
  intro e he
  exact ⟨known_mem e.1 (edges_known e he).1, known_mem e.2 (edges_known e he).2⟩

/-- The allocated shape of the per-slot tables: outer length
`slot_height`, every row of length `slot_width`. -/
def tableShapeP (w h : Nat) (t : List (List Nat)) : Prop :=
  t.length = h ∧ ∀ r ∈ t, r.length = w

theorem writeCell_some_shape {w h : Nat} {t t' : List (List Nat)}
    {i j v : Nat} (hs : tableShapeP w h t)
    (hw : writeCell t i j v = some t') : tableShapeP w h t' := by
  unfold writeCell at hw
  cases hrow : t[i]? with
  | none => rw [hrow] at hw; simp at hw
  | some row =>
    rw [hrow] at hw
    simp only [Option.bind_eq_bind, Option.some_bind] at hw
    by_cases hj : j < row.length
    · rw [if_pos hj] at hw
      simp only [Option.some_inj] at hw
      subst hw
      refine ⟨by rw [List.length_set]; exact hs.1, ?_⟩
      intro r hr
      rcases List.mem_or_eq_of_mem_set hr with hr' | rfl
      · exact hs.2 r hr'
      · rw [List.length_set]
        exact hs.2 row (List.mem_iff_getElem?.mpr ⟨i, hrow⟩)
    · rw [if_neg hj] at hw
      simp at hw

theorem writeCell_succeeds {w h : Nat} {t : List (List Nat)}
    (i j v : Nat) (hs : tableShapeP w h t) (hi : i < h) (hj : j < w) :
    ∃ t', writeCell t i j v = some t' := by
  have hil : i < t.length := by rw [hs.1]; exact hi
  have hrow : t[i]? = some t[i] := List.getElem?_eq_getElem hil
  have hlen : t[i].length = w := hs.2 _ (List.getElem_mem hil)
  refine ⟨t.set i (t[i].set j v), ?_⟩
  unfold writeCell
  rw [hrow]
  simp only [Option.bind_eq_bind, Option.some_bind]
  rw [if_pos (by rw [hlen]; exact hj)]

theorem foldlM_append_option {α β : Type} (f : β → α → Option β)
    (l₁ l₂ : List α) (b : β) :
    (l₁ ++ l₂).foldlM f b = (l₁.foldlM f b).bind (fun b' => l₂.foldlM f b') := by
  induction l₁ generalizing b with
  | nil => simp
  | cons a l ih =>
    simp only [List.cons_append, List.foldlM_cons]
    cases f b a with
    | none => simp
    | some b' => simp [ih]

theorem writes_block_succeed {w h : Nat} (g : Nat × Nat → Nat) :
    ∀ (l : List (Nat × Nat)) (t : List (List Nat)), tableShapeP w h t →
      (∀ ij ∈ l, ij.1 < h ∧ ij.2 < w) →
      ∃ t', l.foldlM (fun t ij => writeCell t ij.1 ij.2 (g ij)) t = some t'
        ∧ tableShapeP w h t' := by
  intro l
  induction l with
  | nil => intro t hs _; exact ⟨t, rfl, hs⟩
  | cons ij l ih =>
    intro t hs hb
    obtain ⟨hi, hj⟩ := hb ij (List.mem_cons_self ij l)
    obtain ⟨t₁, ht₁⟩ := writeCell_succeeds ij.1 ij.2 (g ij) hs hi hj
    have hs₁ := writeCell_some_shape hs ht₁
    obtain ⟨t', ht', hs'⟩ :=
      ih t₁ hs₁ (fun p hp => hb p (List.mem_cons_of_mem ij hp))
    exact ⟨t', by rw [List.foldlM_cons, ht₁]; exact ht', hs'⟩

/-- C10: whenever `slot_height` exceeds `slot_width`, the population
loop of `Device.__init__` indexes the per-slot tables out of bounds
(the tables are allocated `slot_height × slot_width` but written at
`[i][j]` with `i < slot_width`, `j < slot_height`), and
`get_num_nmu_in_slot(x, y)` with `slot_width ≤ y < slot_height` indexes
out of bounds even though both range assertions pass. -/
theorem c10_per_slot_table_oob (w h ncol : Nat) (rows : List Nat)
    (hw : 0 < w) (hwh : w < h) :
    populateNmuPerSlot w h ncol rows = none
    ∧ ∀ t x y, tableShapeP w h t → x < w → w ≤ y → y < h →
        tableAt t x y = none := by
  constructor
  · have hsplit : populateAccesses w h
        = populateAccesses w (w + 1)
          ++ ((List.range (h - (w + 1))).map (fun j => (w + 1) + j)).flatMap
              (fun j => (List.range w).map (fun i => (i, j))) := by
      unfold populateAccesses
      rw [show h = (w + 1) + (h - (w + 1)) by omega, List.range_add,
        List.flatMap_append]
      simp only [show w + 1 + (h - (w + 1)) - (w + 1) = h - (w + 1) by omega]
    have hsplit2 : populateAccesses w (w + 1)
        = populateAccesses w w ++ (List.range w).map (fun i => (i, w)) := by
      unfold populateAccesses
      rw [List.range_succ, List.flatMap_append]
      simp
    rw [populateNmuPerSlot, hsplit, foldlM_append_option, hsplit2,
      foldlM_append_option]
    have hshape0 : tableShapeP w h (nmuPerSlotInit w h) := by
      refine ⟨by simp [nmuPerSlotInit], ?_⟩
      intro r hr
      rw [List.eq_of_mem_replicate hr]
      simp
    have hbounds : ∀ ij ∈ populateAccesses w w, ij.1 < h ∧ ij.2 < w := by
      intro ij hij
      unfold populateAccesses at hij
      simp only [List.mem_flatMap, List.mem_map, List.mem_range] at hij
      obtain ⟨j, hj, i, hi, rfl⟩ := hij
      exact ⟨lt_trans hi hwh, hj⟩
    obtain ⟨t₁, ht₁, hs₁⟩ := writes_block_succeed
      (fun ij => nmuSlotVal rows ncol w ij.2) (populateAccesses w w)
      (nmuPerSlotInit w h) hshape0 hbounds
    rw [ht₁]
    simp only [Option.some_bind]
    obtain ⟨k, rfl⟩ : ∃ k, w = k + 1 := ⟨w - 1, by omega⟩
    rw [List.range_succ_eq_map, List.map_cons, List.foldlM_cons]
    have h0len : 0 < t₁.length := by rw [hs₁.1]; omega
    have hnone : writeCell t₁ 0 (k + 1)
        (nmuSlotVal rows ncol (k + 1) (k + 1)) = none := by
      unfold writeCell
      rw [List.getElem?_eq_getElem h0len]
      simp only [Option.bind_eq_bind, Option.some_bind]
      rw [if_neg]
      rw [hs₁.2 _ (List.getElem_mem h0len)]
      omega
    rw [hnone]
    simp
  · intro t x y hs hx hwy hy
    unfold tableAt
    have hxl : x < t.length := by rw [hs.1]; omega
    rw [List.getElem?_eq_getElem hxl]
    simp only [Option.bind_eq_bind, Option.some_bind]
    have : t[x].length ≤ y := by
      rw [hs.2 _ (List.getElem_mem hxl)]
      omega
    exact List.getElem?_eq_none this

/-! ## Concrete witnesses -/

/-- Witness for C1 at a one-stream instance. -/
theorem c1_witness :
    Constr.eqC [((1 : ℚ), IVar.y "s" "a"), ((1 : ℚ), IVar.notMapped "s")] 1
      ∈ ilpModelConstraints 16 ⟨[], [], [], []⟩
          [("s", ⟨["a"], ["b"]⟩)] [] [] [] :=
  (c1_selection_constraints 16 ⟨[], [], [], []⟩ [("s", ⟨["a"], ["b"]⟩)]
    [] [] [] "s" ⟨["a"], ["b"]⟩ (by decide)).1

/-- Witness for C2 at a one-edge instance. -/
theorem c2_witness :
    Constr.leC (bwConstrLhs 16 [("s", 100)] [("p", 64, 32)] ("a", "b")) 16000
      ∈ ilpModelConstraints 16 ⟨[⟨"a", "b", 16000⟩], ["a", "b"], ["a"], ["b"]⟩
          [] [("s", 100)] [] [("p", 64, 32)] :=
  (c2_capacity_constraints 16
    ⟨[⟨"a", "b", 16000⟩], ["a", "b"], ["a"], ["b"]⟩
    [] [("s", 100)] [] [("p", 64, 32)] ⟨"a", "b", 16000⟩ (by decide)).1

/-- Witness for C3 at a two-stream instance sharing the only NMU node. -/
theorem c3_witness :
    Constr.leC [((1 : ℚ), IVar.y "s" "a"), ((1 : ℚ), IVar.y "t" "a")]
        (1 - ((0 : ℕ) : ℚ))
      ∈ ilpModelConstraints 16 ⟨[], [], ["a"], ["b"]⟩
          [("s", ⟨["a"], ["b"]⟩), ("t", ⟨["a"], ["b"]⟩)] [] [] [] :=
  (c3_endpoint_exclusivity 16 ⟨[], [], ["a"], ["b"]⟩
    [("s", ⟨["a"], ["b"]⟩), ("t", ⟨["a"], ["b"]⟩)] [] [] []).1 "a" (by decide)

/-- The all-ones valuation. -/
def vOne : IVar → ℚ := fun _ => 1

/-- A one-stream, one-edge instance for the objective witness. -/
def c4Graph : NocGraphIfc := ⟨[⟨"a", "b", 16000⟩], ["a", "b"], ["a"], ["b"]⟩

/-- Its `streams_nodes`. -/
def c4Sn : StreamsNodes := [("s", ⟨["a"], ["b"]⟩)]

/-- Its `streams_slots` (`dist = |1−0| + |1−0| = 2`). -/
def c4Slots : StreamsSlots := [("s", "SLOT_X0Y0", "SLOT_X1Y1")]

/-- Its `streams_bw`. -/
def c4Sbw : StreamsBw := [("s", 8)]

/-- Its Manhattan-distance dict. -/
def c4Dl : List (String × Int) := [("s", 2)]

/-- The objective built for that instance. -/
def c4Obj : LinExpr :=
  [((8 : ℚ) * ((2 : ℤ) : ℚ), IVar.notMapped "s"),
    ((300 : ℚ), IVar.x "s" ("a", "b"))]

/-- Witness for C4 at the one-stream instance, under the all-ones
valuation. -/
theorem c4_witness :
    evalLin vOne c4Obj
      = (c4Sbw.map (fun sb =>
          sb.2 * (((c4Dl.lookup sb.1).getD 0 : ℤ) : ℚ)
            * vOne (IVar.notMapped sb.1))).sum
        + 300 * (c4Sn.map (fun se =>
            (c4Graph.allEdges.map (fun e => vOne (IVar.x se.1 e))).sum)).sum :=
  (c4_objective c4Graph c4Sn c4Slots c4Sbw c4Dl c4Obj (by rfl) (by rfl)).2 vOne

/-- The split-FIFO scenario with even depth 16 (spec scenario S5). -/
def fifoS5 : FifoIR :=
  { name := "st2",
    parameters := [⟨"DEPTH", "16"⟩, ⟨"BODY_LEVEL", "2"⟩,
      ⟨"__HEAD_REGION", "\"SLOT_X0Y0\""⟩, ⟨"__TAIL_REGION", "\"SLOT_X1Y0\""⟩,
      ⟨"DATA_WIDTH", "34"⟩],
    connections := [⟨"if_dout", "w1"⟩, ⟨"if_empty_n", "w2"⟩,
      ⟨"if_read", "w3"⟩, ⟨"if_din", "w4"⟩, ⟨"if_full_n", "w5"⟩,
      ⟨"if_write", "w6"⟩] }

/-- The parsed parameters of `fifoS5`. -/
def fpS5 : FifoParams :=
  { depth := 16, head_region := "\"SLOT_X0Y0\"",
    tail_region := "\"SLOT_X1Y0\"", data_width := 33 }

/-- Witness for C6 (amended) at the even-depth FIFO. -/
theorem c6_witness :
    (create_nmu_fifo_ir fifoS5 fpS5 (m_axis_ports_of "st2")).name
        = "nmu_" ++ fifoS5.name
    ∧ (⟨"DEPTH", toString (Int.fdiv fpS5.depth 2)⟩ : ParamIR)
        ∈ (create_nmu_fifo_ir fifoS5 fpS5 (m_axis_ports_of "st2")).parameters :=
  ⟨(c6_fifo_split fifoS5 fpS5 (m_axis_ports_of "st2") (s_axis_ports_of "st2")
      (by rfl)).1,
    ((c6_fifo_split fifoS5 fpS5 (m_axis_ports_of "st2") (s_axis_ports_of "st2")
      (by rfl)).2.2.1 ⟨"DEPTH", "16"⟩ (by decide) rfl).1⟩

/-- Witness for C8 at two concrete slot ranges. -/
theorem c8_witness :
    streamManhattanDist "SLOT_X0Y0_TO_SLOT_X1Y1" "SLOT_X3Y2_TO_SLOT_X3Y2"
        = some (|(3 : ℤ) - 0| + |(2 : ℤ) - 0|)
    ∧ streamManhattanDist "SLOT_X0Y0_TO_SLOT_X1Y1" "SLOT_X3Y2_TO_SLOT_X3Y2"
        = streamManhattanDist "SLOT_X3Y2_TO_SLOT_X3Y2"
            "SLOT_X0Y0_TO_SLOT_X1Y1" :=
  c8_manhattan_lower_left "SLOT_X0Y0_TO_SLOT_X1Y1" "SLOT_X3Y2_TO_SLOT_X3Y2"
    [(0, 0), (0, 1), (1, 0), (1, 1)] [(3, 2)] (0, 0) (3, 2)
    (by rfl) (by rfl) (by rfl) (by rfl)

set_option maxRecDepth 10000 in
/-- Witness for C9 (amended) at the first edge of the graph. -/
theorem c9_witness :
    NodeName.nmu 0 0 ∈ vh1582_nocgraph.all_family_nodes
    ∧ NodeName.nps_vnoc 0 1 ∈ vh1582_nocgraph.all_family_nodes :=
  c9_edges_in_family_tables (NodeName.nmu 0 0, NodeName.nps_vnoc 0 1)
    (by decide)

/-- Witness for C10 at the VP1802 configuration
(`slot_width = 2`, `slot_height = 4`, `rows_per_slr = [7, 6, 6, 6]`). -/
theorem c10_witness :
    populateNmuPerSlot 2 4 4 [7, 6, 6, 6] = none
    ∧ tableAt (nmuPerSlotInit 2 4) 0 2 = none :=
  ⟨(c10_per_slot_table_oob 2 4 4 [7, 6, 6, 6] (by decide) (by decide)).1,
    (c10_per_slot_table_oob 2 4 4 [7, 6, 6, 6] (by decide) (by decide)).2
      (nmuPerSlotInit 2 4) 0 2 ⟨by decide, by decide⟩
      (by decide) (by decide) (by decide)⟩
